import Mathlib

/-!
Verification of the x328-proto crate (ANSI X3.28 fieldbus, sans-IO).

This file shallowly embeds the sans-IO core of the crate — the wire
codec (`types.rs`, `bcc` from `slave.rs`), the streaming parser
(`nom_parser.rs`), the bounded buffer (`buffer.rs`), the bus controller
(`master.rs`) and the node state machine (`node.rs`) — and proves (or
refutes) the testable properties stated in the design document.

Bytes are modelled as `Nat` (always < 256 where it matters), byte
strings as `List Nat`, Rust `Option`/fallible paths as `Option`, and
nom's streaming results as `Except PErr (remaining × value)` where
`PErr` distinguishes `Incomplete` from `Error` (nom's `alt` recovers
only from the latter).
-/

set_option maxRecDepth 1000000

attribute [instance] Nat.decidableBallLT

/-! ### ASCII control bytes (crate::ascii, fixed by spec §4.1 and the
test vectors in master.rs / nom_parser.rs) -/

def STX : Nat := 0x02
def ETX : Nat := 0x03
def EOT : Nat := 0x04
def ENQ : Nat := 0x05
def ACK : Nat := 0x06
def BS : Nat := 0x08
def NAK : Nat := 0x15

/-! ### BCC (slave.rs `bcc`) -/

/-- XOR-fold of the bytes, bumped by 0x20 when the fold lands below 0x20. -/
def bcc (data : List Nat) : Nat :=
  let c := data.foldl (fun acc b => acc ^^^ b) 0
  if c < 0x20 then c + 0x20 else c

/-! ### Character classes used by the parser -/

/-- Rust `u8::is_ascii_digit`. -/
def isDigit (c : Nat) : Bool := 0x30 ≤ c && c ≤ 0x39

/-- The value alphabet in `nom_parser::x328_value`: digits, '+', '-'. -/
def isValChar (c : Nat) : Bool := isDigit c || c == 0x2B || c == 0x2D

/-! ### types.rs: Address, Parameter, Value -/

/-- `Address::to_bytes`: tens digit doubled then units digit doubled. -/
def Address.to_bytes (a : Nat) : List Nat :=
  [0x30 + a / 10, 0x30 + a / 10, 0x30 + a % 10, 0x30 + a % 10]

/-- `Parameter::to_bytes`: four ASCII digits, zero padded (the source's
reverse-fill loop, unrolled). -/
def Parameter.to_bytes (p : Nat) : List Nat :=
  [0x30 + p / 1000 % 10, 0x30 + p / 100 % 10, 0x30 + p / 10 % 10, 0x30 + p % 10]

/-- `Parameter::next`. -/
def Parameter.next (p : Nat) : Option Nat :=
  if p < 9999 then some (p + 1) else none

/-- `Parameter::prev`. -/
def Parameter.prev (p : Nat) : Option Nat :=
  if 0 < p then some (p - 1) else none

/-- `types::ValueFormat`. -/
inductive ValueFormat
  | Wide
  | Normal
deriving DecidableEq, Repr

/-- `types::Value`: the contained integer plus its on-wire format. -/
structure Value where
  val : Int
  fmt : ValueFormat
deriving DecidableEq, Repr

/-- Little-endian digit-push loop of `Value::to_bytes`.  `none` models the
`ArrayVec::push` panic on overflow of the 6-byte buffer; the fuel (8 in
all call sites) is enough to reach either the break or the panic for
every input. -/
def to_bytes_loop (fmt : ValueFormat) : Nat → Nat → List Nat → Option (List Nat)
  | 0, _, _ => none
  | fuel + 1, val, buf =>
    if buf.length = 6 then none
    else
      let buf' := buf ++ [0x30 + val % 10]
      let val' := val / 10
      if val' = 0 ∧ (fmt = ValueFormat.Normal ∨ buf'.length = 5) then some buf'
      else to_bytes_loop fmt fuel val' buf'

/-- `Value::to_bytes`: digits of |val| little-endian (padded to five for
Wide), then the sign ('-' always for negatives, '+' for non-negatives
when the buffer is not full), then reverse. -/
def Value.to_bytes (v : Value) : Option (List Nat) :=
  (to_bytes_loop v.fmt 8 v.val.natAbs []).bind (fun buf =>
    if v.val < 0 then
      if buf.length = 6 then none else some ((buf ++ [0x2D]).reverse)
    else if buf.length = 6 then some buf.reverse
    else some ((buf ++ [0x2B]).reverse))

/-- Fold a big-endian ASCII digit string into a number, as Rust's
integer `from_str` does. -/
def digitsToNat (l : List Nat) : Nat :=
  l.foldl (fun acc c => acc * 10 + (c - 0x30)) 0

/-- Rust `i32::from_str` on an ASCII byte string: optional sign, then at
least one digit, range-checked. -/
def rust_parse_i32 (s : List Nat) : Option Int :=
  let sd : Int × List Nat :=
    match s with
    | [] => (1, [])
    | c :: rest =>
      if c = 0x2B then (1, rest)
      else if c = 0x2D then (-1, rest)
      else (1, c :: rest)
  if sd.2.isEmpty then none
  else if sd.2.all isDigit then
    let x : Int := sd.1 * digitsToNat sd.2
    if -(2 ^ 31) ≤ x ∧ x < 2 ^ 31 then some x else none
  else none

/-- Rust `u16::from_str`: optional '+', then at least one digit,
range-checked. -/
def rust_parse_u16 (s : List Nat) : Option Nat :=
  let ds := match s with
    | [] => []
    | c :: rest => if c = 0x2B then rest else c :: rest
  if ds.isEmpty then none
  else if ds.all isDigit then
    let n := digitsToNat ds
    if n < 65536 then some n else none
  else none

/-- `Parameter::try_from(&[u8])`: length must be 4, parse as u16, then
`Parameter::new` range checks into [0, 9999]. -/
def Parameter.try_from (s : List Nat) : Option Nat :=
  if s.length = 4 then
    (rust_parse_u16 s).bind (fun n => if n ≤ 9999 then some n else none)
  else none

/-- `Value::try_from(&[u8])` / `FromStr`: the format is decided by the
byte length (1..=5 Normal, 6 Wide), the integer parsed as i32. -/
def Value.try_from (s : List Nat) : Option Value :=
  if 1 ≤ s.length ∧ s.length ≤ 5 then
    (rust_parse_i32 s).map (fun x => Value.mk x ValueFormat.Normal)
  else if s.length = 6 then
    (rust_parse_i32 s).map (fun x => Value.mk x ValueFormat.Wide)
  else none

/-- The values on which `Value::to_bytes` is panic-free: the documented
range, and at most five digits for the always-padded Wide format. -/
def ValidValue (v : Value) : Prop :=
  -99999 ≤ v.val ∧ v.val ≤ 999999 ∧ (v.fmt = ValueFormat.Wide → v.val ≤ 99999)

/-! ### buffer.rs: the bounded byte buffer -/

/-- Capacity of the default buffer. -/
def BUF_CAP : Nat := 40

/-- `buffer::Buffer`: backing bytes plus read cursor. -/
structure Buffer where
  data : List Nat
  read_pos : Nat
deriving DecidableEq, Repr

/-- `Buffer::new`. -/
def Buffer.new : Buffer := ⟨[], 0⟩

/-- Visible length (`Buffer::len`). -/
def Buffer.len (b : Buffer) : Nat := b.data.length - b.read_pos

/-- `Buffer::consume`: advance the read cursor. (The Rust assert that
`n` does not exceed the visible length holds at every call site we
model.) -/
def Buffer.consume (b : Buffer) (n : Nat) : Buffer := ⟨b.data, b.read_pos + n⟩

/-- The ingest byte map: bytes above 0x7F become NUL. -/
def nulMap (b : Nat) : Nat := if 0x7f < b then 0 else b

/-- `Buffer::write`: clear when fully read, keep only the last
`BUF_CAP` bytes of an oversized write, otherwise drop oldest bytes to
make room; NUL-map the fresh bytes. -/
def Buffer.write (buf : Buffer) (bytes : List Nat) : Buffer :=
  let buf := if buf.read_pos = buf.data.length then Buffer.new else buf
  if BUF_CAP < bytes.length then
    ⟨(bytes.drop (bytes.length - BUF_CAP)).map nulMap, 0⟩
  else
    let cap := BUF_CAP - buf.data.length
    let (dta, rp) :=
      if cap < bytes.length then
        (buf.data.drop (bytes.length - cap), buf.read_pos - (bytes.length - cap))
      else (buf.data, buf.read_pos)
    ⟨dta ++ bytes.map nulMap, rp⟩

/-- `Buffer::push` (only reached on non-full buffers in the modelled
paths). -/
def Buffer.push (b : Buffer) (byte : Nat) : Buffer :=
  if b.data.length = BUF_CAP then b.write [byte] else ⟨b.data ++ [byte], b.read_pos⟩

/-- `Buffer::as_ref`: the visible bytes. -/
def Buffer.as_ref (b : Buffer) : List Nat := b.data.drop b.read_pos

/-! ### nom_parser.rs: streaming combinators

nom's streaming parsers return `Incomplete` when the input ran out and
`Error` on a mismatch; `alt` retries only after `Error`. -/

/-- The two nom failure modes. -/
inductive PErr
  | incomplete
  | error
deriving DecidableEq, Repr

/-- `nom::character::streaming::char`. -/
def ascii_char (c : Nat) : List Nat → Except PErr (List Nat × Unit) :=
  fun buf =>
    match buf with
    | [] => Except.error PErr.incomplete
    | b :: rest => if b = c then Except.ok (rest, ()) else Except.error PErr.error

/-- `nom::bytes::streaming::take_while_m_n`: scan for the first byte
failing the predicate; on success split at `min idx n`, demand at least
`m` matches, and report `Incomplete` when the input ends before `n`
matches are secured. -/
def take_while_m_n (m n : Nat) (p : Nat → Bool) (buf : List Nat) :
    Except PErr (List Nat × List Nat) :=
  let idx := (buf.takeWhile p).length
  if idx = buf.length then
    if n ≤ buf.length then Except.ok (buf.drop n, buf.take n)
    else Except.error PErr.incomplete
  else if m ≤ idx then
    Except.ok (buf.drop (min idx n), buf.take (min idx n))
  else Except.error PErr.error

/-- `nom::number::streaming::u8`. -/
def u8_any : List Nat → Except PErr (List Nat × Nat)
  | [] => Except.error PErr.incomplete
  | b :: rest => Except.ok (rest, b)

/-- Sequencing of nom parsers (the `?` operator / tuple combinators):
errors propagate, success feeds the remaining input onward. -/
def pbind {α β : Type} (r : Except PErr (List Nat × α))
    (f : List Nat → α → Except PErr (List Nat × β)) : Except PErr (List Nat × β) :=
  match r with
  | Except.error e => Except.error e
  | Except.ok (rest, v) => f rest v

@[simp] theorem pbind_ok {α β : Type} (rest : List Nat) (v : α)
    (f : List Nat → α → Except PErr (List Nat × β)) :
    pbind (Except.ok (rest, v)) f = f rest v := rfl

@[simp] theorem pbind_error {α β : Type} (e : PErr)
    (f : List Nat → α → Except PErr (List Nat × β)) :
    pbind (Except.error e) f = Except.error e := rfl

/-- `nom::combinator::map_res`: a failed conversion becomes a parse
`Error`. -/
def map_res {α : Type} (o : Option α) (rest : List Nat) :
    Except PErr (List Nat × α) :=
  match o with
  | some v => Except.ok (rest, v)
  | none => Except.error PErr.error

@[simp] theorem map_res_some {α : Type} (v : α) (rest : List Nat) :
    map_res (some v) rest = Except.ok (rest, v) := rfl

@[simp] theorem map_res_none {α : Type} (rest : List Nat) :
    map_res (none : Option α) rest = Except.error PErr.error := rfl

/-- `nom::branch::alt` on two parsers: the second runs only when the
first fails with `Error` (never on `Incomplete`). -/
def altE {α : Type} (p q : List Nat → Except PErr (List Nat × α)) :
    List Nat → Except PErr (List Nat × α) :=
  fun buf =>
    match p buf with
    | Except.error PErr.error => q buf
    | r => r

/-- `nom::combinator::all_consuming`. -/
def all_consuming {α : Type} (p : List Nat → Except PErr (List Nat × α)) :
    List Nat → Except PErr (List Nat × α) :=
  fun buf =>
    match p buf with
    | Except.ok ([], v) => Except.ok ([], v)
    | Except.ok (_ :: _, _) => Except.error PErr.error
    | Except.error e => Except.error e

/-- `map_res(take_while_m_n(4, 4, is_ascii_digit), Parameter::try_from)`
(nom_parser.rs `parameter`). -/
def parameterP (buf : List Nat) : Except PErr (List Nat × Nat) :=
  pbind (take_while_m_n 4 4 isDigit buf) (fun rest b =>
    map_res (Parameter.try_from b) rest)

/-- nom_parser.rs `x328_value`: 1..6 bytes of the value alphabet
converted by `Value::try_from`, terminated by ETX. -/
def x328_valueP (buf : List Nat) : Except PErr (List Nat × Value) :=
  pbind (take_while_m_n 1 6 isValChar buf) (fun rest b =>
    pbind (map_res (Value.try_from b) rest) (fun rest2 v =>
      pbind (ascii_char ETX rest2) (fun rest3 _ => Except.ok (rest3, v))))

/-- nom_parser.rs `stx_param_value_etx_bcc`: STX, then
`consumed(tuple((parameter, x328_value)))`, then a BCC byte verified
against the consumed span. -/
def stx_param_value_etx_bcc (buf : List Nat) :
    Except PErr (List Nat × (Nat × Value)) :=
  pbind (ascii_char STX buf) (fun buf1 _ =>
    pbind (parameterP buf1) (fun buf2 param =>
      pbind (x328_valueP buf2) (fun buf3 value =>
        let bcc_slice := buf1.take (buf1.length - buf3.length)
        pbind (u8_any buf3) (fun buf4 recv_bcc =>
          if bcc bcc_slice = recv_bcc then Except.ok (buf4, (param, value))
          else Except.error PErr.error))))

/-- nom_parser.rs `master::ResponseToken`. -/
inductive ResponseToken
  | WriteOk
  | WriteFailed
  | InvalidParameter
  | ReadOk (parameter : Nat) (value : Value)
  | NeedData
  | InvalidDataReceived
deriving DecidableEq, Repr

/-- nom_parser.rs `master::parse_response`: collapse the nom result. -/
def parse_response (r : Except PErr (List Nat × ResponseToken)) : ResponseToken :=
  match r with
  | Except.ok (_, token) => token
  | Except.error PErr.incomplete => ResponseToken.NeedData
  | Except.error PErr.error => ResponseToken.InvalidDataReceived

/-- The `alt` inside `master::parse_write_response`:
ACK → WriteOk, NAK → WriteFailed, EOT → InvalidParameter. -/
def write_resp_alt : List Nat → Except PErr (List Nat × ResponseToken) :=
  altE (fun b => (ascii_char ACK b).map (fun (r, _) => (r, ResponseToken.WriteOk)))
    (altE (fun b => (ascii_char NAK b).map (fun (r, _) => (r, ResponseToken.WriteFailed)))
      (fun b => (ascii_char EOT b).map (fun (r, _) => (r, ResponseToken.InvalidParameter))))

/-- nom_parser.rs `master::parse_write_response`. -/
def parse_write_response (buf : List Nat) : ResponseToken :=
  parse_response (all_consuming write_resp_alt buf)

/-- The `alt` inside `master::parse_read_response`:
EOT → InvalidParameter, `stx_param_value_etx_bcc` → ReadOk. -/
def read_resp_alt : List Nat → Except PErr (List Nat × ResponseToken) :=
  altE (fun b => (ascii_char EOT b).map (fun (r, _) => (r, ResponseToken.InvalidParameter)))
    (fun b => (stx_param_value_etx_bcc b).map
      (fun (r, pv) => (r, ResponseToken.ReadOk pv.1 pv.2)))

/-- nom_parser.rs `master::parse_read_response`. -/
def parse_read_response (buf : List Nat) : ResponseToken :=
  parse_response (all_consuming read_resp_alt buf)

/-- nom_parser.rs `node::CommandToken` (`ReadAgain` carries the
parameter offset: ACK ↦ +1, NAK ↦ 0, BS ↦ −1). -/
inductive CommandToken
  | WriteParameter (a p : Nat) (v : Value)
  | ReadParameter (a p : Nat)
  | ReadAgain (offset : Int)
  | InvalidPayload (a : Nat)
  | NeedData
deriving DecidableEq, Repr

/-- nom_parser.rs `node::find_last_eot`: the suffix starting at the last
EOT, or empty. -/
def find_last_eot : List Nat → List Nat
  | [] => []
  | b :: rest =>
    match find_last_eot rest with
    | [] => if b = EOT then b :: rest else []
    | r => r

/-- `Address::new`: range check into [0, 99]. -/
def Address.new (a : Nat) : Option Nat :=
  if a ≤ 99 then some a else none

/-- nom_parser.rs `node::address`: four ASCII digits with the doubled
pattern, decoded through `Address::new`. -/
def addressP (buf : List Nat) : Except PErr (List Nat × Nat) :=
  pbind (take_while_m_n 4 4 isDigit buf) (fun rest x =>
    match x with
    | [x0, x1, x2, x3] =>
      if x0 = x1 ∧ x2 = x3 then
        map_res (Address.new ((x1 - 0x30) * 10 + (x2 - 0x30))) rest
      else Except.error PErr.error
    | _ => Except.error PErr.error)

/-- nom_parser.rs `node::eot_address`. -/
def eot_address (buf : List Nat) : Except PErr (List Nat × Nat) :=
  pbind (ascii_char EOT buf) (fun b1 _ => addressP b1)

/-- nom_parser.rs `node::read_command`. -/
def read_commandP (buf : List Nat) : Except PErr (List Nat × CommandToken) :=
  pbind (eot_address buf) (fun b1 a =>
    pbind (parameterP b1) (fun b2 p =>
      pbind (ascii_char ENQ b2) (fun b3 _ =>
        Except.ok (b3, CommandToken.ReadParameter a p))))

/-- nom_parser.rs `node::write_command`. -/
def write_commandP (buf : List Nat) : Except PErr (List Nat × CommandToken) :=
  pbind (eot_address buf) (fun b1 a =>
    pbind (stx_param_value_etx_bcc b1) (fun b2 pv =>
      Except.ok (b2, CommandToken.WriteParameter a pv.1 pv.2)))

/-- nom_parser.rs `node::read_again`: ACK / NAK / BS at buffer head. -/
def read_againP (buf : List Nat) : Except PErr (List Nat × CommandToken) :=
  altE (fun b => (ascii_char ACK b).map (fun (r, _) => (r, CommandToken.ReadAgain 1)))
    (altE (fun b => (ascii_char NAK b).map (fun (r, _) => (r, CommandToken.ReadAgain 0)))
      (fun b => (ascii_char BS b).map (fun (r, _) => (r, CommandToken.ReadAgain (-1)))))
    buf

/-- nom_parser.rs `node::invalid_payload`: EOT, an optional address
(`opt` recovers from `Error` only), then skip to the next EOT. -/
def invalid_payloadP (buf : List Nat) : Except PErr (List Nat × CommandToken) :=
  pbind (ascii_char EOT buf) (fun b1 _ =>
    match addressP b1 with
    | Except.ok (b2, a) => Except.ok (find_last_eot b2, CommandToken.InvalidPayload a)
    | Except.error PErr.incomplete => Except.error PErr.incomplete
    | Except.error PErr.error => Except.ok (find_last_eot b1, CommandToken.NeedData))

/-- The command alternatives tried after skipping to the last EOT. -/
def command_alt : List Nat → Except PErr (List Nat × CommandToken) :=
  altE write_commandP (altE read_commandP invalid_payloadP)

/-- nom_parser.rs `node::alt_match`: a short-form byte wins outright;
otherwise bytes before the last EOT are discarded and the command
alternatives are tried, any failure collapsing to `NeedData`. -/
def alt_match (buf : List Nat) : List Nat × CommandToken :=
  match read_againP buf with
  | Except.ok x => x
  | Except.error _ =>
    let b2 := find_last_eot buf
    match command_alt b2 with
    | Except.ok x => x
    | Except.error _ => (b2, CommandToken.NeedData)

/-- nom_parser.rs `node::parse_command`: consumed byte count plus token. -/
def parse_command (buf : List Nat) : Nat × CommandToken :=
  let rt := alt_match buf
  (buf.length - rt.1.length, rt.2)

/-! ### master.rs: the bus controller -/

/-- master.rs `Master`: the read-again context plus per-node
`can_read_again` capability flags (all 100 entries default to false);
the array is modelled as a total function, indexed only with valid
addresses. -/
structure Master where
  read_again : Option (Nat × Nat)
  nodes : Nat → Bool

/-- `Master::new`. -/
def Master.new : Master := ⟨none, fun _ => false⟩

/-- `Master::read_again_enable`. -/
def Master.read_again_enable (m : Master) (address : Nat) (can : Bool) : Master :=
  { m with nodes := fun x => if x = address then can else m.nodes x }

/-- `Master::try_read_again`: always takes (clears) the context; the
short byte is produced only for the same address, an enabled node, and
a parameter offset in {0, 1, −1}. -/
def Master.try_read_again (m : Master) (address parameter : Nat) :
    Master × Option Nat :=
  match m.read_again with
  | none => (m, none)
  | some (old_addr, old_param) =>
    let m' : Master := { m with read_again := none }
    if old_addr = address ∧ m'.nodes address then
      if (parameter : Int) - (old_param : Int) = 0 then (m', some NAK)
      else if (parameter : Int) - (old_param : Int) = 1 then (m', some ACK)
      else if (parameter : Int) - (old_param : Int) = -1 then (m', some BS)
      else (m', none)
    else (m', none)

/-- The write frame built by `Master::write_parameter`:
`EOT addr STX param value ETX bcc(frame[6..])`; `none` models the
`Value::to_bytes` panic. -/
def write_frame (a p : Nat) (v : Value) : Option (List Nat) :=
  (v.to_bytes).map (fun vb =>
    let data := EOT :: Address.to_bytes a ++ [STX] ++ Parameter.to_bytes p ++ vb ++ [ETX]
    data ++ [bcc (data.drop 6)])

/-- The long-form read frame built by `Master::read_parameter`:
`EOT addr param ENQ`. -/
def read_frame (a p : Nat) : List Nat :=
  EOT :: Address.to_bytes a ++ Parameter.to_bytes p ++ [ENQ]

/-- The read reply frame built by node.rs `ReadParam::send_reply_ok`:
`STX param value ETX bcc(frame[1..])`. -/
def read_response_frame (p : Nat) (v : Value) : Option (List Nat) :=
  (v.to_bytes).map (fun vb =>
    let data := STX :: Parameter.to_bytes p ++ vb ++ [ETX]
    data ++ [bcc (data.drop 1)])

/-- `Master::write_parameter`: clears the read-again context and emits
the write frame.  The paired receiver state is just a fresh buffer. -/
def Master.write_parameter (m : Master) (a p : Nat) (v : Value) :
    Master × Option (List Nat) :=
  ({ m with read_again := none }, write_frame a p v)

/-- master.rs `ReceiveReadResponse`: exclusive borrow of the master plus
receive buffer and the request being answered. -/
structure ReceiveReadResponse where
  master : Master
  buffer : Buffer
  address : Nat
  expected_param : Nat

/-- `Master::read_parameter`: try the short read-again form, fall back
to the long frame, and hand out the receiver. -/
def Master.read_parameter (m : Master) (a p : Nat) :
    ReceiveReadResponse × List Nat :=
  match m.try_read_again a p with
  | (m', some b) => (⟨m', Buffer.new, a, p⟩, [b])
  | (m', none) => (⟨m', Buffer.new, a, p⟩, read_frame a p)

/-- master.rs `Error`. -/
inductive Master.Error
  | InvalidParameter
  | CommandFailed
  | ProtocolError
deriving DecidableEq, Repr

/-- `ReceiveWriteResponse::receive_data`: always completes, mapping
`WriteOk → Ok`, `WriteFailed | InvalidParameter → CommandFailed`, and
everything else (including `NeedData`) to `ProtocolError`. -/
def receive_write_response (buffer : Buffer) (data : List Nat) :
    Except Master.Error Unit :=
  let buffer := buffer.write data
  match parse_write_response buffer.as_ref with
  | ResponseToken.WriteOk => Except.ok ()
  | ResponseToken.WriteFailed => Except.error Master.Error.CommandFailed
  | ResponseToken.InvalidParameter => Except.error Master.Error.CommandFailed
  | _ => Except.error Master.Error.ProtocolError

/-- Result of `ReceiveReadResponse::receive_data`: either more data is
needed or the exchange is done, returning the (possibly updated)
master. -/
inductive ReadProgress
  | NeedData (r : ReceiveReadResponse)
  | Done (master : Master) (result : Except Master.Error Value)

/-- `ReceiveReadResponse::receive_data`: `ReadOk` with the expected
parameter records the read-again context and yields the value; a bare
EOT is `InvalidParameter`; everything else fully parsed is
`ProtocolError`. -/
def ReceiveReadResponse.receive_data (r : ReceiveReadResponse) (data : List Nat) :
    ReadProgress :=
  let buffer := r.buffer.write data
  match parse_read_response buffer.as_ref with
  | ResponseToken.NeedData => ReadProgress.NeedData { r with buffer }
  | ResponseToken.ReadOk parameter value =>
    if parameter = r.expected_param then
      ReadProgress.Done { r.master with read_again := some (r.address, parameter) }
        (Except.ok value)
    else ReadProgress.Done r.master (Except.error Master.Error.ProtocolError)
  | ResponseToken.InvalidParameter =>
    ReadProgress.Done r.master (Except.error Master.Error.InvalidParameter)
  | _ => ReadProgress.Done r.master (Except.error Master.Error.ProtocolError)

/-- Fetch the master out of an exchange (the pending receiver still
borrows it in the `NeedData` arm). -/
def ReadProgress.get_master : ReadProgress → Master
  | ReadProgress.NeedData r => r.master
  | ReadProgress.Done m _ => m

/-- Fetch the result of a finished exchange. -/
def ReadProgress.get_result : ReadProgress → Option (Except Master.Error Value)
  | ReadProgress.NeedData _ => none
  | ReadProgress.Done _ res => some res

/-! ### node.rs: the node state machine -/

/-- node.rs `InternalState`. -/
inductive InternalState
  | Recv
  | Send
  | Read (address parameter : Nat)
  | Write (address parameter : Nat) (value : Value)
deriving DecidableEq, Repr

/-- node.rs `Node`. -/
structure Node where
  state : InternalState
  address : Nat
  read_again_param : Option (Nat × Nat)
  buffer : Buffer
deriving DecidableEq, Repr

/-- `Node::new`. -/
def Node.new (address : Nat) : Node := ⟨InternalState.Recv, address, none, Buffer.new⟩

/-- node.rs `ReceiveData::for_us`: our address or the broadcast
address 0. -/
def Node.for_us (n : Node) (address : Nat) : Bool :=
  n.address == address || n.address == 0

/-- node.rs `SendData::from_byte`: clear the buffer, push the byte,
switch to `Send`. -/
def SendData.from_byte (n : Node) (byte : Nat) : Node :=
  { n with state := InternalState.Send, buffer := Buffer.push ⟨[], 0⟩ byte }

/-- The short-form target parameter (node.rs dispatch: previous / next /
same, via `Parameter::prev` / `Parameter::next`). -/
def read_again_target (last_param : Nat) (off : Int) : Option Nat :=
  if off = -1 then Parameter.prev last_param
  else if off = 1 then Parameter.next last_param
  else some last_param

/-- The token-draining loop of node.rs `ReceiveData::parse_buffer`:
parse, consume, take the read-again context, and stop when the buffer
is empty (token found) or nothing was consumed (need data).  Each
productive iteration consumes at least one byte of a ≤ 40-byte buffer,
so fuel 41 always reaches the source's loop exit. -/
def parse_buffer_loop : Nat → Buffer → Option (Nat × Nat) →
    Option (CommandToken × Option (Nat × Nat)) × Buffer × Option (Nat × Nat)
  | 0, buffer, rap => (none, buffer, rap)
  | fuel + 1, buffer, rap =>
    let ct := parse_command buffer.as_ref
    if ct.1 = 0 then (none, buffer, rap)
    else
      let buffer' := buffer.consume ct.1
      if buffer'.len = 0 then (some (ct.2, rap), buffer', none)
      else parse_buffer_loop fuel buffer' none

/-- The `match token` block of node.rs `ReceiveData::parse_buffer`:
commands filtered by address, short-form reads guarded by a live
read-again context, invalid payloads to our address answered with NAK,
everything else ignored. -/
def node_dispatch (n' : Node) (token : CommandToken) (rap : Option (Nat × Nat)) :
    Node :=
  match token, rap with
  | CommandToken.ReadParameter address parameter, _ =>
    if n'.for_us address then { n' with state := InternalState.Read address parameter }
    else n'
  | CommandToken.WriteParameter address parameter value, _ =>
    if n'.for_us address then
      { n' with state := InternalState.Write address parameter value }
    else n'
  | CommandToken.ReadAgain off, some (addr, last_param) =>
    match read_again_target last_param off with
    | some p => { n' with state := InternalState.Read addr p }
    | none => SendData.from_byte n' EOT
  | CommandToken.InvalidPayload address, _ =>
    if address = n'.address then SendData.from_byte n' NAK else n'
  | _, _ => n'

/-- node.rs `ReceiveData::parse_buffer`: drain tokens (the read-again
context is taken in the loop), then dispatch the final one. -/
def Node.parse_buffer (n : Node) : Node :=
  match parse_buffer_loop 41 n.buffer n.read_again_param with
  | (none, buffer, rap) => { n with buffer := buffer, read_again_param := rap }
  | (some (token, rap), buffer, _) =>
    node_dispatch { n with buffer := buffer, read_again_param := none } token rap

/-- node.rs `ReceiveData::receive_data` (the node is in `Recv`): write
into the buffer, then parse it. -/
def Node.receive_data (n : Node) (data : List Nat) : Node :=
  Node.parse_buffer { n with buffer := n.buffer.write data }

/-! ## Lemmas: BCC -/

/-- The XOR-fold of 7-bit bytes stays below 0x80. -/
theorem xor_fold_lt (l : List Nat) (acc : Nat) (hacc : acc < 0x80)
    (h : ∀ b ∈ l, b < 0x80) : l.foldl (fun acc b => acc ^^^ b) acc < 0x80 := by
  induction l generalizing acc with
  | nil => simpa using hacc
  | cons x xs ih =>
    simp only [List.foldl_cons]
    exact ih (acc ^^^ x)
      (Nat.xor_lt_two_pow (n := 7) hacc (h x (List.mem_cons_self x xs)))
      (fun b hb => h b (List.mem_cons_of_mem x hb))

/-- `bcc` of 7-bit input lands in the printable band [0x20, 0x7F]. -/
theorem bcc_range (l : List Nat) (h : ∀ b ∈ l, b < 0x80) :
    0x20 ≤ bcc l ∧ bcc l ≤ 0x7f := by
  have := xor_fold_lt l 0 (by norm_num) h
  simp only [bcc]
  split <;> omega

/-! ## Lemmas: take_while_m_n -/

/-- `takeWhile` walks through a fully matching prefix. -/
theorem takeWhile_append_of_all (p : Nat → Bool) (xs ys : List Nat)
    (h : ∀ x ∈ xs, p x = true) :
    (xs ++ ys).takeWhile p = xs ++ ys.takeWhile p := by
  induction xs with
  | nil => simp
  | cons a l ih =>
    have ha := h a (List.mem_cons_self a l)
    have ihs := ih (fun x hx => h x (List.mem_cons_of_mem a hx))
    simp [List.takeWhile_cons, ha, ihs]

/-- `take_while_m_n` with an exactly-n matching prefix succeeds and
splits there, whatever follows. -/
theorem take_while_m_n_exact {m n : Nat} (p : Nat → Bool) (xs rest : List Nat)
    (hm : m ≤ n) (hlen : xs.length = n) (hall : ∀ x ∈ xs, p x = true) :
    take_while_m_n m n p (xs ++ rest) = Except.ok (rest, xs) := by
  have htw : ((xs ++ rest).takeWhile p).length = n + (rest.takeWhile p).length := by
    rw [takeWhile_append_of_all p xs rest hall]; simp [hlen]
  have hdrop : (xs ++ rest).drop n = rest := by
    rw [← hlen]; exact List.drop_left xs rest
  have htake : (xs ++ rest).take n = xs := by
    rw [← hlen]; exact List.take_left xs rest
  have hwl : (rest.takeWhile p).length ≤ rest.length :=
    (List.takeWhile_sublist p).length_le
  unfold take_while_m_n
  simp only [htw, List.length_append, hlen]
  by_cases hc : n + (rest.takeWhile p).length = n + rest.length
  · rw [if_pos hc, if_pos (by omega), hdrop, htake]
  · rw [if_neg hc, if_pos (by omega), Nat.min_eq_right (by omega), hdrop, htake]

/-- `take_while_m_n` with a matching prefix of admissible length,
stopped by a non-matching byte, succeeds and splits there. -/
theorem take_while_m_n_stop {m n : Nat} (p : Nat → Bool) (xs : List Nat)
    (r : Nat) (rs : List Nat) (hm : m ≤ xs.length) (hn : xs.length ≤ n)
    (hall : ∀ x ∈ xs, p x = true) (hr : p r = false) :
    take_while_m_n m n p (xs ++ r :: rs) = Except.ok (r :: rs, xs) := by
  have htw : ((xs ++ r :: rs).takeWhile p) = xs := by
    rw [takeWhile_append_of_all p xs _ hall, List.takeWhile_cons, hr]
    simp
  have hdrop : (xs ++ r :: rs).drop xs.length = r :: rs := List.drop_left xs _
  have htake : (xs ++ r :: rs).take xs.length = xs := List.take_left xs _
  unfold take_while_m_n
  simp only [htw, List.length_append, List.length_cons]
  rw [if_neg (by omega), if_pos hm, Nat.min_eq_left hn, hdrop, htake]

/-! ## Lemmas: digit strings and numeric conversions -/

/-- Digit bytes test. -/
theorem isDigit_iff (c : Nat) : isDigit c = true ↔ 0x30 ≤ c ∧ c ≤ 0x39 := by
  simp [isDigit]

/-- Value-alphabet bytes lie in [0x2B, 0x39]. -/
theorem isValChar_bounds (c : Nat) (h : isValChar c = true) :
    0x2B ≤ c ∧ c ≤ 0x39 := by
  simp only [isValChar, isDigit, Bool.or_eq_true, decide_eq_true_eq, beq_iff_eq,
    Bool.and_eq_true] at h
  rcases h with (⟨h1, h2⟩ | h | h) <;> omega

/-- Address bytes are ASCII digits. -/
theorem addr_bytes_digits (a : Nat) (ha : a ≤ 99) :
    ∀ c ∈ Address.to_bytes a, isDigit c = true := by
  intro c hc
  rw [isDigit_iff]
  simp only [Address.to_bytes, List.mem_cons, List.not_mem_nil, or_false] at hc
  rcases hc with rfl | rfl | rfl | rfl <;> omega

/-- Parameter bytes are ASCII digits. -/
theorem param_bytes_digits (p : Nat) :
    ∀ c ∈ Parameter.to_bytes p, isDigit c = true := by
  intro c hc
  rw [isDigit_iff]
  simp only [Parameter.to_bytes, List.mem_cons, List.not_mem_nil, or_false] at hc
  rcases hc with rfl | rfl | rfl | rfl <;> omega

/-- `u16::from_str` on a pure digit string. -/
theorem rust_parse_u16_digits (c : Nat) (s : List Nat)
    (hd : ∀ x ∈ c :: s, isDigit x = true) (hlt : digitsToNat (c :: s) < 65536) :
    rust_parse_u16 (c :: s) = some (digitsToNat (c :: s)) := by
  have hc := (isDigit_iff c).mp (hd c (List.mem_cons_self c s))
  have hne : ¬(c = 0x2B) := by omega
  have hall : (c :: s).all isDigit = true := by
    simp only [List.all_eq_true]; exact hd
  simp only [rust_parse_u16, hne, if_false, List.isEmpty_cons, Bool.false_eq_true,
    hall, if_true, if_pos hlt]

/-- `i32::from_str` on a pure digit string (no sign). -/
theorem rust_parse_i32_digits (c : Nat) (s : List Nat)
    (hd : ∀ x ∈ c :: s, isDigit x = true)
    (hlt : (digitsToNat (c :: s) : Int) < 2 ^ 31) :
    rust_parse_i32 (c :: s) = some ((digitsToNat (c :: s) : Int)) := by
  have hc := (isDigit_iff c).mp (hd c (List.mem_cons_self c s))
  have hne : ¬(c = 0x2B) := by omega
  have hne2 : ¬(c = 0x2D) := by omega
  have hall : (c :: s).all isDigit = true := by
    simp only [List.all_eq_true]; exact hd
  simp only [rust_parse_i32, hne, hne2, if_false, List.isEmpty_cons,
    Bool.false_eq_true, hall, if_true, one_mul]
  rw [if_pos (by constructor <;> omega)]

/-- `i32::from_str` on '+' followed by digits. -/
theorem rust_parse_i32_plus (c : Nat) (s : List Nat)
    (hd : ∀ x ∈ c :: s, isDigit x = true)
    (hlt : (digitsToNat (c :: s) : Int) < 2 ^ 31) :
    rust_parse_i32 (0x2B :: c :: s) = some ((digitsToNat (c :: s) : Int)) := by
  have hall : (c :: s).all isDigit = true := by
    simp only [List.all_eq_true]; exact hd
  simp only [rust_parse_i32, if_pos rfl, List.isEmpty_cons, Bool.false_eq_true,
    if_false, hall, if_true, one_mul]
  rw [if_pos (by constructor <;> omega)]

/-- `i32::from_str` on '-' followed by digits. -/
theorem rust_parse_i32_minus (c : Nat) (s : List Nat)
    (hd : ∀ x ∈ c :: s, isDigit x = true)
    (hlt : (digitsToNat (c :: s) : Int) ≤ 2 ^ 31) :
    rust_parse_i32 (0x2D :: c :: s) = some (-(digitsToNat (c :: s) : Int)) := by
  have hne : ¬((0x2D : Nat) = 0x2B) := by omega
  have hall : (c :: s).all isDigit = true := by
    simp only [List.all_eq_true]; exact hd
  simp only [rust_parse_i32, hne, if_false, if_pos rfl, List.isEmpty_cons,
    Bool.false_eq_true, hall, if_true, neg_one_mul]
  rw [if_pos (by constructor <;> omega)]

/-- Reparsing `Parameter::to_bytes` recovers the parameter. -/
theorem parameter_try_from_to_bytes (p : Nat) (hp : p ≤ 9999) :
    Parameter.try_from (Parameter.to_bytes p) = some p := by
  have hnum : digitsToNat (Parameter.to_bytes p) = p := by
    simp only [Parameter.to_bytes, digitsToNat, List.foldl_cons, List.foldl_nil]
    omega
  unfold Parameter.try_from
  rw [if_pos (by simp [Parameter.to_bytes])]
  have := rust_parse_u16_digits (0x30 + p / 1000 % 10)
    [0x30 + p / 100 % 10, 0x30 + p / 10 % 10, 0x30 + p % 10]
    (param_bytes_digits p) (by rw [show ((0x30 + p / 1000 % 10) ::
      [0x30 + p / 100 % 10, 0x30 + p / 10 % 10, 0x30 + p % 10]) =
      Parameter.to_bytes p from rfl, hnum]; omega)
  rw [show Parameter.to_bytes p = (0x30 + p / 1000 % 10) ::
    [0x30 + p / 100 % 10, 0x30 + p / 10 % 10, 0x30 + p % 10] from rfl] at hnum ⊢
  rw [this, hnum, Option.some_bind, if_pos hp]

/-- Parsing `Parameter::to_bytes` with the stream parser. -/
theorem parameterP_ok (p : Nat) (hp : p ≤ 9999) (rest : List Nat) :
    parameterP (Parameter.to_bytes p ++ rest) = Except.ok (rest, p) := by
  unfold parameterP
  rw [take_while_m_n_exact isDigit (Parameter.to_bytes p) rest (le_refl 4)
    (by simp [Parameter.to_bytes]) (param_bytes_digits p)]
  rw [pbind_ok, parameter_try_from_to_bytes p hp, map_res_some]

/-- Parsing `Address::to_bytes` with the stream parser. -/
theorem addressP_ok (a : Nat) (ha : a ≤ 99) (rest : List Nat) :
    addressP (Address.to_bytes a ++ rest) = Except.ok (rest, a) := by
  unfold addressP
  rw [take_while_m_n_exact isDigit (Address.to_bytes a) rest (le_refl 4)
    (by simp [Address.to_bytes]) (addr_bytes_digits a ha)]
  rw [pbind_ok]
  show (if 0x30 + a / 10 = 0x30 + a / 10 ∧ 0x30 + a % 10 = 0x30 + a % 10 then
    map_res (Address.new ((0x30 + a / 10 - 0x30) * 10 + (0x30 + a % 10 - 0x30))) rest
    else Except.error PErr.error) = Except.ok (rest, a)
  rw [if_pos ⟨rfl, rfl⟩, show (0x30 + a / 10 - 0x30) * 10 + (0x30 + a % 10 - 0x30) = a
    by omega]
  unfold Address.new
  rw [if_pos ha, map_res_some]

/-! ## Lemmas: the Value digit loop -/

/-- Little-endian digits of a number (at least one digit), mirroring the
unpadded Normal-format trace of `to_bytes_loop`. -/
def digitsLE (a : Nat) : List Nat :=
  if a < 10 then [0x30 + a % 10] else (0x30 + a % 10) :: digitsLE (a / 10)
termination_by a
decreasing_by simp_wf; omega

/-- Exactly-n little-endian digits (zero padded), mirroring the Wide
trace of `to_bytes_loop`. -/
def padLE : Nat → Nat → List Nat
  | _, 0 => []
  | a, n + 1 => (0x30 + a % 10) :: padLE (a / 10) n

theorem padLE_length (a n : Nat) : (padLE a n).length = n := by
  induction n generalizing a with
  | zero => rfl
  | succ k ih => simp [padLE, ih]

theorem padLE_digits (a n : Nat) : ∀ c ∈ padLE a n, isDigit c = true := by
  induction n generalizing a with
  | zero => simp [padLE]
  | succ k ih =>
    intro c hc
    simp only [padLE, List.mem_cons] at hc
    rcases hc with rfl | hc
    · rw [isDigit_iff]; omega
    · exact ih (a / 10) c hc

theorem digitsToNat_append_digit (l : List Nat) (d : Nat) :
    digitsToNat (l ++ [d]) = digitsToNat l * 10 + (d - 0x30) := by
  simp [digitsToNat, List.foldl_append]

theorem digitsToNat_reverse_padLE (n : Nat) : ∀ a, a < 10 ^ n →
    digitsToNat (padLE a n).reverse = a := by
  induction n with
  | zero => intro a ha; interval_cases a; rfl
  | succ k ih =>
    intro a ha
    have : (padLE a (k + 1)).reverse = (padLE (a / 10) k).reverse ++ [0x30 + a % 10] := by
      simp [padLE]
    rw [this, digitsToNat_append_digit, ih (a / 10) (by omega)]
    omega

theorem digitsLE_length_pos (a : Nat) : 1 ≤ (digitsLE a).length := by
  rw [digitsLE]
  split <;> simp

theorem digitsLE_digits (a : Nat) : ∀ c ∈ digitsLE a, isDigit c = true := by
  induction a using Nat.strong_induction_on with
  | _ a ih =>
    intro c hc
    rw [digitsLE] at hc
    by_cases h : a < 10
    · rw [if_pos h] at hc
      simp only [List.mem_singleton] at hc
      subst hc; rw [isDigit_iff]; omega
    · rw [if_neg h] at hc
      simp only [List.mem_cons] at hc
      rcases hc with rfl | hc
      · rw [isDigit_iff]; omega
      · exact ih (a / 10) (by omega) c hc

theorem digitsToNat_reverse_digitsLE (a : Nat) :
    digitsToNat (digitsLE a).reverse = a := by
  induction a using Nat.strong_induction_on with
  | _ a ih =>
    rw [digitsLE]
    by_cases h : a < 10
    · rw [if_pos h]
      simp only [List.reverse_singleton, digitsToNat, List.foldl_cons, List.foldl_nil]
      omega
    · rw [if_neg h]
      simp only [List.reverse_cons]
      rw [digitsToNat_append_digit, ih (a / 10) (by omega)]
      omega

theorem digitsLE_length_le (n : Nat) : ∀ a, 1 ≤ n → a < 10 ^ n →
    (digitsLE a).length ≤ n := by
  induction n with
  | zero => omega
  | succ k ih =>
    intro a _ ha
    rw [digitsLE]
    by_cases h : a < 10
    · rw [if_pos h]; simp
    · rw [if_neg h]
      simp only [List.length_cons]
      have : (digitsLE (a / 10)).length ≤ k := by
        have hk : 1 ≤ k := by
          rcases Nat.eq_zero_or_pos k with rfl | hk
          · simp at ha; omega
          · exact hk
        exact ih (a / 10) hk (by
          have : 10 ^ (k + 1) = 10 ^ k * 10 := by ring
          omega)
      omega

theorem digitsLE_length_ge (n : Nat) : ∀ a, 10 ^ n ≤ a →
    n + 1 ≤ (digitsLE a).length := by
  induction n with
  | zero => intro a _; exact digitsLE_length_pos a
  | succ k ih =>
    intro a ha
    have h10 : ¬(a < 10) := by
      have : 10 ≤ 10 ^ (k + 1) := by
        calc 10 = 10 ^ 1 := by norm_num
        _ ≤ 10 ^ (k + 1) := Nat.pow_le_pow_right (by norm_num) (by omega)
      omega
    rw [digitsLE, if_neg h10]
    simp only [List.length_cons]
    have : k + 1 ≤ (digitsLE (a / 10)).length := by
      apply ih
      have : 10 ^ (k + 1) = 10 ^ k * 10 := by ring
      omega
    omega

/-- The Normal-format loop produces the little-endian digits. -/
theorem loop_normal (fuel : Nat) : ∀ (a : Nat) (buf : List Nat),
    (digitsLE a).length ≤ fuel → buf.length + (digitsLE a).length ≤ 6 →
    to_bytes_loop ValueFormat.Normal fuel a buf = some (buf ++ digitsLE a) := by
  induction fuel with
  | zero =>
    intro a buf hfuel _
    have := digitsLE_length_pos a
    omega
  | succ k ih =>
    intro a buf hfuel hlen
    have hpos := digitsLE_length_pos a
    simp only [to_bytes_loop]
    rw [if_neg (by omega)]
    by_cases h : a < 10
    · have hdig : digitsLE a = [0x30 + a % 10] := by rw [digitsLE, if_pos h]
      rw [if_pos ⟨by omega, Or.inl trivial⟩, hdig]
    · have hdig : digitsLE a = (0x30 + a % 10) :: digitsLE (a / 10) := by
        rw [digitsLE, if_neg h]
      rw [if_neg (by rintro ⟨h1, -⟩; omega)]
      rw [ih (a / 10) (buf ++ [0x30 + a % 10]) (by rw [hdig] at hfuel; simp at hfuel ⊢; omega)
        (by rw [hdig] at hlen; simp at hlen ⊢; omega)]
      rw [hdig]
      simp

/-- The Wide-format loop pads to five digits. -/
theorem loop_wide_aux (n : Nat) : ∀ (fuel a : Nat) (buf : List Nat),
    1 ≤ n → n ≤ fuel → buf.length = 5 - n → n ≤ 5 → a < 10 ^ n →
    to_bytes_loop ValueFormat.Wide fuel a buf = some (buf ++ padLE a n) := by
  induction n with
  | zero => omega
  | succ k ih =>
    intro fuel a buf _ hfuel hbuf hn ha
    obtain ⟨f, rfl⟩ : ∃ f, fuel = f + 1 := ⟨fuel - 1, by omega⟩
    simp only [to_bytes_loop]
    rw [if_neg (by omega)]
    rcases Nat.eq_zero_or_pos k with rfl | hk
    · rw [if_pos ⟨by omega, Or.inr (by simp; omega)⟩]
      simp [padLE, show a / 10 = 0 by omega]
    · rw [if_neg (by
        rintro ⟨-, h | h⟩
        · exact absurd h (by simp)
        · simp at h; omega)]
      rw [ih f (a / 10) (buf ++ [0x30 + a % 10]) hk (by omega) (by simp; omega) (by omega)
        (by
          have : 10 ^ (k + 1) = 10 ^ k * 10 := by ring
          omega)]
      simp [padLE]

/-- `Value::to_bytes` on a valid Wide value: a sign then five big-endian
digits. -/
theorem to_bytes_wide (v : Value) (hfmt : v.fmt = ValueFormat.Wide)
    (h1 : -99999 ≤ v.val) (h2 : v.val ≤ 99999) :
    v.to_bytes = some ((if v.val < 0 then 0x2D else 0x2B) ::
      (padLE v.val.natAbs 5).reverse) := by
  have hpow : (10 : Nat) ^ 5 = 100000 := by norm_num
  have ha : v.val.natAbs < 10 ^ 5 := by rw [hpow]; omega
  have hloop := loop_wide_aux 5 8 v.val.natAbs [] (by omega) (by omega) (by simp)
    (by omega) ha
  have hlen : (padLE v.val.natAbs 5).length = 5 := padLE_length _ _
  unfold Value.to_bytes
  rw [hfmt, hloop]
  simp only [List.nil_append, Option.some_bind]
  by_cases hneg : v.val < 0
  · rw [if_pos hneg, if_neg (by simp [hlen]), if_pos hneg]
    simp
  · rw [if_neg hneg, if_neg (by simp [hlen]), if_neg hneg]
    simp

/-- `Value::to_bytes` on a valid Normal value: digits with a sign,
except that six-digit non-negative values carry no sign. -/
theorem to_bytes_normal (v : Value) (hfmt : v.fmt = ValueFormat.Normal)
    (h1 : -99999 ≤ v.val) (h2 : v.val ≤ 999999) :
    v.to_bytes = some (
      if v.val < 0 then 0x2D :: (digitsLE v.val.natAbs).reverse
      else if (digitsLE v.val.natAbs).length = 6 then (digitsLE v.val.natAbs).reverse
      else 0x2B :: (digitsLE v.val.natAbs).reverse) := by
  have hpow : (10 : Nat) ^ 6 = 1000000 := by norm_num
  have hlen6 : (digitsLE v.val.natAbs).length ≤ 6 :=
    digitsLE_length_le 6 _ (by omega) (by rw [hpow]; omega)
  have hloop := loop_normal 8 v.val.natAbs [] (by omega) (by simpa using hlen6)
  unfold Value.to_bytes
  rw [hfmt, hloop]
  simp only [List.nil_append, Option.some_bind]
  by_cases hneg : v.val < 0
  · have hpow5 : (10 : Nat) ^ 5 = 100000 := by norm_num
    have hlen5 : (digitsLE v.val.natAbs).length ≤ 5 :=
      digitsLE_length_le 5 _ (by omega) (by rw [hpow5]; omega)
    rw [if_pos hneg, if_neg (by omega), if_pos hneg]
    simp
  · rw [if_neg hneg]
    by_cases h6 : (digitsLE v.val.natAbs).length = 6
    · rw [if_pos h6, if_neg hneg, if_pos h6]
    · rw [if_neg h6, if_neg hneg, if_neg h6]
      simp

/-- The full `Value::to_bytes` contract on valid values: it succeeds,
yields 1..6 value-alphabet bytes (exactly six for Wide), and
`i32::from_str` recovers the integer. -/
theorem value_to_bytes_spec (v : Value) (hv : ValidValue v) :
    ∃ bs, v.to_bytes = some bs ∧ 1 ≤ bs.length ∧ bs.length ≤ 6 ∧
      (∀ c ∈ bs, isValChar c = true) ∧
      rust_parse_i32 bs = some v.val ∧
      (v.fmt = ValueFormat.Wide → bs.length = 6) := by
  obtain ⟨hlo, hhi, hwide⟩ := hv
  cases hfmt : v.fmt with
  | Wide =>
    have hub : v.val ≤ 99999 := hwide hfmt
    have ha : v.val.natAbs < 10 ^ 5 := by
      have : (10 : Nat) ^ 5 = 100000 := by norm_num
      omega
    have hb := to_bytes_wide v hfmt hlo hub
    have hrevlen : (padLE v.val.natAbs 5).reverse.length = 5 := by
      simp [padLE_length]
    obtain ⟨c, s, hcs⟩ := List.exists_cons_of_ne_nil
      (show (padLE v.val.natAbs 5).reverse ≠ [] by
        intro h; rw [h] at hrevlen; simp at hrevlen)
    have hdig : ∀ x ∈ c :: s, isDigit x = true := by
      rw [← hcs]
      intro x hx
      exact padLE_digits v.val.natAbs 5 x (List.mem_reverse.mp hx)
    have hnum : digitsToNat (c :: s) = v.val.natAbs := by
      rw [← hcs]; exact digitsToNat_reverse_padLE 5 v.val.natAbs ha
    by_cases hneg : v.val < 0
    · refine ⟨0x2D :: (padLE v.val.natAbs 5).reverse, ?_, ?_, ?_, ?_, ?_, ?_⟩
      · rw [hb, if_pos hneg]
      · simp
      · simp [hrevlen]
      · intro x hx
        rcases List.mem_cons.mp hx with rfl | hx
        · simp [isValChar]
        · have := padLE_digits v.val.natAbs 5 x (List.mem_reverse.mp hx)
          simp [isValChar, this]
      · rw [hcs, rust_parse_i32_minus c s hdig (by rw [hnum]; omega), hnum]
        congr 1
        omega
      · intro _; simp [hrevlen]
    · refine ⟨0x2B :: (padLE v.val.natAbs 5).reverse, ?_, ?_, ?_, ?_, ?_, ?_⟩
      · rw [hb, if_neg hneg]
      · simp
      · simp [hrevlen]
      · intro x hx
        rcases List.mem_cons.mp hx with rfl | hx
        · simp [isValChar]
        · have := padLE_digits v.val.natAbs 5 x (List.mem_reverse.mp hx)
          simp [isValChar, this]
      · rw [hcs, rust_parse_i32_plus c s hdig (by rw [hnum]; omega), hnum]
        congr 1
        omega
      · intro _; simp [hrevlen]
  | Normal =>
    have hb := to_bytes_normal v hfmt hlo hhi
    have hlpos : 1 ≤ (digitsLE v.val.natAbs).length := digitsLE_length_pos _
    have hl6 : (digitsLE v.val.natAbs).length ≤ 6 :=
      digitsLE_length_le 6 _ (by omega) (by norm_num; omega)
    obtain ⟨c, s, hcs⟩ := List.exists_cons_of_ne_nil
      (show (digitsLE v.val.natAbs).reverse ≠ [] by
        intro h
        have h2 := congrArg List.length h
        rw [List.length_reverse] at h2
        simp only [List.length_nil] at h2
        omega)
    have hdig : ∀ x ∈ c :: s, isDigit x = true := by
      rw [← hcs]
      intro x hx
      exact digitsLE_digits v.val.natAbs x (List.mem_reverse.mp hx)
    have hnum : digitsToNat (c :: s) = v.val.natAbs := by
      rw [← hcs]; exact digitsToNat_reverse_digitsLE v.val.natAbs
    have hclen : (c :: s).length = (digitsLE v.val.natAbs).length := by
      rw [← hcs]; simp
    have hvc : ∀ x ∈ (digitsLE v.val.natAbs).reverse, isValChar x = true := by
      intro x hx
      have := digitsLE_digits v.val.natAbs x (List.mem_reverse.mp hx)
      simp [isValChar, this]
    by_cases hneg : v.val < 0
    · have hl5 : (digitsLE v.val.natAbs).length ≤ 5 :=
        digitsLE_length_le 5 _ (by omega) (by norm_num; omega)
      refine ⟨0x2D :: (digitsLE v.val.natAbs).reverse, ?_, ?_, ?_, ?_, ?_, ?_⟩
      · rw [hb, if_pos hneg]
      · simp
      · simp; omega
      · intro x hx
        rcases List.mem_cons.mp hx with rfl | hx
        · simp [isValChar]
        · exact hvc x hx
      · rw [hcs, rust_parse_i32_minus c s hdig (by rw [hnum]; omega), hnum]
        congr 1
        omega
      · intro h; exact absurd h (by simp)
    · by_cases h6 : (digitsLE v.val.natAbs).length = 6
      · refine ⟨(digitsLE v.val.natAbs).reverse, ?_, ?_, ?_, ?_, ?_, ?_⟩
        · rw [hb, if_neg hneg, if_pos h6]
        · simp; omega
        · simp; omega
        · exact hvc
        · rw [hcs, rust_parse_i32_digits c s hdig (by rw [hnum]; omega), hnum]
          congr 1
          omega
        · intro h; exact absurd h (by simp)
      · refine ⟨0x2B :: (digitsLE v.val.natAbs).reverse, ?_, ?_, ?_, ?_, ?_, ?_⟩
        · rw [hb, if_neg hneg, if_neg h6]
        · simp
        · simp; omega
        · intro x hx
          rcases List.mem_cons.mp hx with rfl | hx
          · simp [isValChar]
          · exact hvc x hx
        · rw [hcs, rust_parse_i32_plus c s hdig (by rw [hnum]; omega), hnum]
          congr 1
          omega
        · intro h; exact absurd h (by simp)

/-! ## Lemmas: small parser steps -/

theorem ascii_char_eq (c : Nat) (rest : List Nat) :
    ascii_char c (c :: rest) = Except.ok (rest, ()) := by
  show (if c = c then Except.ok (rest, ()) else Except.error PErr.error) = _
  rw [if_pos rfl]

theorem ascii_char_ne (b c : Nat) (h : ¬(b = c)) (rest : List Nat) :
    ascii_char c (b :: rest) = Except.error PErr.error := by
  show (if b = c then Except.ok (rest, ()) else Except.error PErr.error) = _
  rw [if_neg h]

theorem ascii_char_nil (c : Nat) : ascii_char c [] = Except.error PErr.incomplete := rfl

/-- `Value::try_from` on bytes that `i32::from_str` accepts: the format
follows the byte length. -/
theorem value_try_from_parse (bs : List Nat) (x : Int) (h : rust_parse_i32 bs = some x)
    (h1 : 1 ≤ bs.length) (h6 : bs.length ≤ 6) :
    ∃ v', Value.try_from bs = some v' ∧ v'.val = x := by
  unfold Value.try_from
  by_cases h5 : bs.length ≤ 5
  · exact ⟨⟨x, ValueFormat.Normal⟩, by rw [if_pos ⟨h1, h5⟩, h]; rfl, rfl⟩
  · refine ⟨⟨x, ValueFormat.Wide⟩, ?_, rfl⟩
    rw [if_neg (by rintro ⟨-, hh⟩; omega), if_pos (by omega), h]
    rfl

/-- `x328_value` on a value byte string followed by ETX. -/
theorem x328_valueP_ok (vb : List Nat) (v' : Value)
    (htf : Value.try_from vb = some v') (h1 : 1 ≤ vb.length) (h6 : vb.length ≤ 6)
    (hvc : ∀ c ∈ vb, isValChar c = true) (rest : List Nat) :
    x328_valueP (vb ++ ETX :: rest) = Except.ok (rest, v') := by
  unfold x328_valueP
  have htw : take_while_m_n 1 6 isValChar (vb ++ ETX :: rest) =
      Except.ok (ETX :: rest, vb) := by
    by_cases h : vb.length = 6
    · exact take_while_m_n_exact isValChar vb (ETX :: rest) (by omega) h hvc
    · exact take_while_m_n_stop isValChar vb ETX rest h1 (by omega) hvc (by decide)
  rw [htw, pbind_ok, htf, map_res_some, pbind_ok, ascii_char_eq, pbind_ok]

/-- `stx_param_value_etx_bcc` on a well-formed frame with the correct
BCC. -/
theorem spveb_ok (p : Nat) (hp : p ≤ 9999) (vb : List Nat) (v' : Value)
    (htf : Value.try_from vb = some v') (h1 : 1 ≤ vb.length) (h6 : vb.length ≤ 6)
    (hvc : ∀ c ∈ vb, isValChar c = true) (rest : List Nat) :
    stx_param_value_etx_bcc (STX :: ((Parameter.to_bytes p ++ (vb ++ [ETX])) ++
      (bcc (Parameter.to_bytes p ++ (vb ++ [ETX])) :: rest))) =
      Except.ok (rest, (p, v')) := by
  unfold stx_param_value_etx_bcc
  rw [ascii_char_eq, pbind_ok]
  have hassoc : (Parameter.to_bytes p ++ (vb ++ [ETX])) ++
      (bcc (Parameter.to_bytes p ++ (vb ++ [ETX])) :: rest) =
      Parameter.to_bytes p ++ (vb ++ ETX ::
        (bcc (Parameter.to_bytes p ++ (vb ++ [ETX])) :: rest)) := by
    simp [List.append_assoc]
  rw [hassoc, parameterP_ok p hp, pbind_ok,
    x328_valueP_ok vb v' htf h1 h6 hvc, pbind_ok]
  have hlen : (Parameter.to_bytes p ++ (vb ++ ETX ::
      (bcc (Parameter.to_bytes p ++ (vb ++ [ETX])) :: rest))).length -
      (bcc (Parameter.to_bytes p ++ (vb ++ [ETX])) :: rest).length =
      (Parameter.to_bytes p ++ (vb ++ [ETX])).length := by
    simp [Parameter.to_bytes]
    omega
  have htk : (Parameter.to_bytes p ++ (vb ++ ETX ::
      (bcc (Parameter.to_bytes p ++ (vb ++ [ETX])) :: rest))).take
      ((Parameter.to_bytes p ++ (vb ++ [ETX])).length) =
      Parameter.to_bytes p ++ (vb ++ [ETX]) := by
    rw [show Parameter.to_bytes p ++ (vb ++ ETX ::
      (bcc (Parameter.to_bytes p ++ (vb ++ [ETX])) :: rest)) =
      (Parameter.to_bytes p ++ (vb ++ [ETX])) ++
      (bcc (Parameter.to_bytes p ++ (vb ++ [ETX])) :: rest) by simp]
    exact List.take_left _ _
  rw [hlen, htk]
  show pbind (u8_any _) _ = _
  rw [show u8_any (bcc (Parameter.to_bytes p ++ (vb ++ [ETX])) :: rest) =
    Except.ok (rest, bcc (Parameter.to_bytes p ++ (vb ++ [ETX]))) from rfl, pbind_ok]
  rw [if_pos rfl]

theorem except_map_ok {α β : Type} (f : α → β) (a : α) :
    (Except.ok a : Except PErr α).map f = Except.ok (f a) := rfl

theorem except_map_error {α β : Type} (f : α → β) (e : PErr) :
    (Except.error e : Except PErr α).map f = Except.error e := rfl

theorem altE_first_ok {α : Type} (p q : List Nat → Except PErr (List Nat × α))
    (buf : List Nat) (rest : List Nat) (v : α) (h : p buf = Except.ok (rest, v)) :
    altE p q buf = Except.ok (rest, v) := by
  simp only [altE, h]

theorem altE_first_incomplete {α : Type} (p q : List Nat → Except PErr (List Nat × α))
    (buf : List Nat) (h : p buf = Except.error PErr.incomplete) :
    altE p q buf = Except.error PErr.incomplete := by
  simp only [altE, h]

theorem altE_first_error {α : Type} (p q : List Nat → Except PErr (List Nat × α))
    (buf : List Nat) (h : p buf = Except.error PErr.error) :
    altE p q buf = q buf := by
  simp only [altE, h]

/-! ## Lemmas: the controller-side response parsers on full frames -/

/-- `read_response_frame` in canonical associativity. -/
theorem read_response_frame_eq (p : Nat) (v : Value) (vb : List Nat)
    (hb : v.to_bytes = some vb) :
    read_response_frame p v = some (STX :: ((Parameter.to_bytes p ++ (vb ++ [ETX])) ++
      [bcc (Parameter.to_bytes p ++ (vb ++ [ETX]))])) := by
  unfold read_response_frame
  rw [hb, Option.map_some']
  simp [List.append_assoc]

/-- `parse_read_response` accepts a well-formed frame. -/
theorem parse_read_response_ok (p : Nat) (hp : p ≤ 9999) (vb : List Nat) (v' : Value)
    (htf : Value.try_from vb = some v') (h1 : 1 ≤ vb.length) (h6 : vb.length ≤ 6)
    (hvc : ∀ c ∈ vb, isValChar c = true) :
    parse_read_response (STX :: ((Parameter.to_bytes p ++ (vb ++ [ETX])) ++
      [bcc (Parameter.to_bytes p ++ (vb ++ [ETX]))])) =
      ResponseToken.ReadOk p v' := by
  have hspveb := spveb_ok p hp vb v' htf h1 h6 hvc []
  have halt : read_resp_alt (STX :: ((Parameter.to_bytes p ++ (vb ++ [ETX])) ++
      [bcc (Parameter.to_bytes p ++ (vb ++ [ETX]))])) =
      Except.ok ([], (ResponseToken.ReadOk p v')) := by
    unfold read_resp_alt
    rw [altE_first_error _ _ _
      (by show (ascii_char EOT _).map _ = _
          rw [ascii_char_ne STX EOT (by decide), except_map_error])]
    show (stx_param_value_etx_bcc _).map _ = _
    rw [hspveb, except_map_ok]
  unfold parse_read_response
  simp only [all_consuming, halt]
  rfl

/-- A final BCC byte different from the recomputed one makes
`parse_read_response` reject the frame. -/
theorem parse_read_response_badbcc (p : Nat) (hp : p ≤ 9999) (vb : List Nat)
    (v' : Value) (htf : Value.try_from vb = some v') (h1 : 1 ≤ vb.length)
    (h6 : vb.length ≤ 6) (hvc : ∀ c ∈ vb, isValChar c = true) (b : Nat)
    (hb : ¬(bcc (Parameter.to_bytes p ++ (vb ++ [ETX])) = b)) :
    parse_read_response (STX :: ((Parameter.to_bytes p ++ (vb ++ [ETX])) ++ [b])) =
      ResponseToken.InvalidDataReceived := by
  have hspveb : stx_param_value_etx_bcc
      (STX :: ((Parameter.to_bytes p ++ (vb ++ [ETX])) ++ [b])) =
      Except.error PErr.error := by
    unfold stx_param_value_etx_bcc
    rw [ascii_char_eq, pbind_ok]
    have hassoc : (Parameter.to_bytes p ++ (vb ++ [ETX])) ++ [b] =
        Parameter.to_bytes p ++ (vb ++ ETX :: [b]) := by
      simp [List.append_assoc]
    rw [hassoc, parameterP_ok p hp, pbind_ok, x328_valueP_ok vb v' htf h1 h6 hvc,
      pbind_ok]
    have hlen : (Parameter.to_bytes p ++ (vb ++ ETX :: [b])).length - [b].length =
        (Parameter.to_bytes p ++ (vb ++ [ETX])).length := by
      simp [Parameter.to_bytes]
    have htk : (Parameter.to_bytes p ++ (vb ++ ETX :: [b])).take
        ((Parameter.to_bytes p ++ (vb ++ [ETX])).length) =
        Parameter.to_bytes p ++ (vb ++ [ETX]) := by
      rw [show Parameter.to_bytes p ++ (vb ++ ETX :: [b]) =
        (Parameter.to_bytes p ++ (vb ++ [ETX])) ++ [b] by simp]
      exact List.take_left _ _
    rw [hlen, htk]
    show pbind (u8_any _) _ = _
    rw [show u8_any [b] = Except.ok ([], b) from rfl, pbind_ok, if_neg hb]
  have halt : read_resp_alt (STX :: ((Parameter.to_bytes p ++ (vb ++ [ETX])) ++ [b])) =
      Except.error PErr.error := by
    unfold read_resp_alt
    rw [altE_first_error _ _ _
      (by show (ascii_char EOT _).map _ = _
          rw [ascii_char_ne STX EOT (by decide), except_map_error])]
    show (stx_param_value_etx_bcc _).map _ = _
    rw [hspveb, except_map_error]
  unfold parse_read_response
  simp only [all_consuming, halt]
  rfl

/-! ## Lemmas: node-side command parsing -/

theorem find_last_eot_of_not_mem (l : List Nat) (h : EOT ∉ l) :
    find_last_eot l = [] := by
  induction l with
  | nil => rfl
  | cons b rest ih =>
    rw [find_last_eot, ih (fun hm => h (List.mem_cons_of_mem b hm))]
    show (if b = EOT then b :: rest else []) = []
    rw [if_neg (show ¬(b = EOT) from fun hb => h (hb ▸ List.mem_cons_self b rest))]

theorem find_last_eot_cons (rest : List Nat) (h : EOT ∉ rest) :
    find_last_eot (EOT :: rest) = EOT :: rest := by
  rw [find_last_eot, find_last_eot_of_not_mem rest h]
  show (if EOT = EOT then EOT :: rest else []) = _
  rw [if_pos rfl]

theorem read_againP_not_short (b : Nat) (l : List Nat) (h6 : ¬(b = ACK))
    (h15 : ¬(b = NAK)) (h8 : ¬(b = BS)) :
    read_againP (b :: l) = Except.error PErr.error := by
  unfold read_againP
  rw [altE_first_error _ _ _ (by
    show (ascii_char ACK _).map _ = _
    rw [ascii_char_ne b ACK h6, except_map_error])]
  rw [altE_first_error _ _ _ (by
    show (ascii_char NAK _).map _ = _
    rw [ascii_char_ne b NAK h15, except_map_error])]
  show (ascii_char BS _).map _ = _
  rw [ascii_char_ne b BS h8, except_map_error]

theorem read_againP_ack (l : List Nat) :
    read_againP (ACK :: l) = Except.ok (l, CommandToken.ReadAgain 1) := by
  unfold read_againP
  rw [altE_first_ok _ _ _ _ _ (by
    show (ascii_char ACK _).map _ = _
    rw [ascii_char_eq, except_map_ok])]

theorem read_againP_nak (l : List Nat) :
    read_againP (NAK :: l) = Except.ok (l, CommandToken.ReadAgain 0) := by
  unfold read_againP
  rw [altE_first_error _ _ _ (by
    show (ascii_char ACK _).map _ = _
    rw [ascii_char_ne NAK ACK (by decide), except_map_error])]
  rw [altE_first_ok _ _ _ _ _ (by
    show (ascii_char NAK _).map _ = _
    rw [ascii_char_eq, except_map_ok])]

theorem read_againP_bs (l : List Nat) :
    read_againP (BS :: l) = Except.ok (l, CommandToken.ReadAgain (-1)) := by
  unfold read_againP
  rw [altE_first_error _ _ _ (by
    show (ascii_char ACK _).map _ = _
    rw [ascii_char_ne BS ACK (by decide), except_map_error])]
  rw [altE_first_error _ _ _ (by
    show (ascii_char NAK _).map _ = _
    rw [ascii_char_ne BS NAK (by decide), except_map_error])]
  show (ascii_char BS _).map _ = _
  rw [ascii_char_eq, except_map_ok]

/-- `read_command` accepts the long-form read frame. -/
theorem read_commandP_ok (a p : Nat) (ha : a ≤ 99) (hp : p ≤ 9999) (rest : List Nat) :
    read_commandP (EOT :: (Address.to_bytes a ++ (Parameter.to_bytes p ++ (ENQ :: rest)))) =
      Except.ok (rest, CommandToken.ReadParameter a p) := by
  unfold read_commandP eot_address
  rw [ascii_char_eq, pbind_ok, addressP_ok a ha, pbind_ok, parameterP_ok p hp,
    pbind_ok, ascii_char_eq, pbind_ok]

/-- `write_command` rejects (hard error) the long-form read frame: a
digit appears where STX is required. -/
theorem write_commandP_read_frame (a p : Nat) (ha : a ≤ 99) (rest : List Nat) :
    write_commandP (EOT :: (Address.to_bytes a ++ (Parameter.to_bytes p ++ (ENQ :: rest)))) =
      Except.error PErr.error := by
  unfold write_commandP eot_address
  rw [ascii_char_eq, pbind_ok, addressP_ok a ha, pbind_ok]
  unfold stx_param_value_etx_bcc
  rw [show Parameter.to_bytes p ++ (ENQ :: rest) = (0x30 + p / 1000 % 10) ::
    ([0x30 + p / 100 % 10, 0x30 + p / 10 % 10, 0x30 + p % 10] ++ (ENQ :: rest))
    by simp [Parameter.to_bytes]]
  rw [ascii_char_ne _ STX (by simp [STX]; omega), pbind_error, pbind_error]

/-- `write_command` accepts the write frame. -/
theorem write_commandP_ok (a p : Nat) (ha : a ≤ 99) (hp : p ≤ 9999) (vb : List Nat)
    (v' : Value) (htf : Value.try_from vb = some v') (h1 : 1 ≤ vb.length)
    (h6 : vb.length ≤ 6) (hvc : ∀ c ∈ vb, isValChar c = true) (rest : List Nat) :
    write_commandP (EOT :: (Address.to_bytes a ++ (STX ::
      ((Parameter.to_bytes p ++ (vb ++ [ETX])) ++
        (bcc (Parameter.to_bytes p ++ (vb ++ [ETX])) :: rest))))) =
      Except.ok (rest, CommandToken.WriteParameter a p v') := by
  unfold write_commandP eot_address
  rw [ascii_char_eq, pbind_ok, addressP_ok a ha, pbind_ok,
    spveb_ok p hp vb v' htf h1 h6 hvc rest, pbind_ok]

theorem eot_ne_of_digit (c : Nat) (h : isDigit c = true) : ¬(EOT = c) := by
  rw [isDigit_iff] at h
  simp only [EOT]
  omega

theorem eot_ne_of_valchar (c : Nat) (h : isValChar c = true) : ¬(EOT = c) := by
  have := isValChar_bounds c h
  simp only [EOT]
  omega

theorem eot_not_mem_read_tail (a p : Nat) (ha : a ≤ 99) :
    EOT ∉ Address.to_bytes a ++ (Parameter.to_bytes p ++ [ENQ]) := by
  intro hmem
  rcases List.mem_append.mp hmem with hm | hm
  · exact eot_ne_of_digit EOT (addr_bytes_digits a ha EOT hm) rfl
  · rcases List.mem_append.mp hm with hm2 | hm2
    · exact eot_ne_of_digit EOT (param_bytes_digits p EOT hm2) rfl
    · simp only [List.mem_singleton] at hm2
      exact absurd hm2 (by decide)

theorem span_7bit (p : Nat) (vb : List Nat) (hvc : ∀ c ∈ vb, isValChar c = true) :
    ∀ b ∈ Parameter.to_bytes p ++ (vb ++ [ETX]), b < 0x80 := by
  intro b hb
  rcases List.mem_append.mp hb with hm | hm
  · have := (isDigit_iff b).mp (param_bytes_digits p b hm)
    omega
  · rcases List.mem_append.mp hm with hm2 | hm2
    · have := isValChar_bounds b (hvc b hm2)
      omega
    · simp only [List.mem_singleton] at hm2
      subst hm2
      decide

theorem eot_not_mem_write_tail (a p : Nat) (ha : a ≤ 99) (vb : List Nat)
    (hvc : ∀ c ∈ vb, isValChar c = true) :
    EOT ∉ Address.to_bytes a ++ (STX :: ((Parameter.to_bytes p ++ (vb ++ [ETX])) ++
      [bcc (Parameter.to_bytes p ++ (vb ++ [ETX]))])) := by
  have hbcc := bcc_range _ (span_7bit p vb hvc)
  intro hmem
  rcases List.mem_append.mp hmem with hm | hm
  · exact eot_ne_of_digit EOT (addr_bytes_digits a ha EOT hm) rfl
  · rcases List.mem_cons.mp hm with hm2 | hm2
    · exact absurd hm2 (by decide)
    · rcases List.mem_append.mp hm2 with hm3 | hm3
      · rcases List.mem_append.mp hm3 with hm4 | hm4
        · exact eot_ne_of_digit EOT (param_bytes_digits p EOT hm4) rfl
        · rcases List.mem_append.mp hm4 with hm5 | hm5
          · exact eot_ne_of_valchar EOT (hvc EOT hm5) rfl
          · simp only [List.mem_singleton] at hm5
            exact absurd hm5 (by decide)
      · simp only [List.mem_singleton] at hm3
        have h20 := hbcc.1
        rw [← hm3] at h20
        simp only [EOT] at h20
        omega

/-- `alt_match` on the long-form read frame. -/
theorem alt_match_read_frame (a p : Nat) (ha : a ≤ 99) (hp : p ≤ 9999) :
    alt_match (EOT :: (Address.to_bytes a ++ (Parameter.to_bytes p ++ [ENQ]))) =
      ([], CommandToken.ReadParameter a p) := by
  have hne := eot_not_mem_read_tail a p ha
  have hra := read_againP_not_short EOT (Address.to_bytes a ++
    (Parameter.to_bytes p ++ [ENQ])) (by decide) (by decide) (by decide)
  have hfle := find_last_eot_cons _ hne
  have hca : command_alt (EOT :: (Address.to_bytes a ++ (Parameter.to_bytes p ++ [ENQ]))) =
      Except.ok ([], CommandToken.ReadParameter a p) := by
    unfold command_alt
    rw [altE_first_error _ _ _ (write_commandP_read_frame a p ha [])]
    exact altE_first_ok _ _ _ _ _ (read_commandP_ok a p ha hp [])
  simp only [alt_match, hra, hfle, hca]

/-- `parse_command` consumes a full read frame and yields its token. -/
theorem parse_command_read_frame (a p : Nat) (ha : a ≤ 99) (hp : p ≤ 9999) :
    parse_command (EOT :: (Address.to_bytes a ++ (Parameter.to_bytes p ++ [ENQ]))) =
      ((EOT :: (Address.to_bytes a ++ (Parameter.to_bytes p ++ [ENQ]))).length,
        CommandToken.ReadParameter a p) := by
  unfold parse_command
  rw [alt_match_read_frame a p ha hp]
  simp

/-- `alt_match` on the write frame. -/
theorem alt_match_write_frame (a p : Nat) (ha : a ≤ 99) (hp : p ≤ 9999) (vb : List Nat)
    (v' : Value) (htf : Value.try_from vb = some v') (h1 : 1 ≤ vb.length)
    (h6 : vb.length ≤ 6) (hvc : ∀ c ∈ vb, isValChar c = true) :
    alt_match (EOT :: (Address.to_bytes a ++ (STX ::
      ((Parameter.to_bytes p ++ (vb ++ [ETX])) ++
        [bcc (Parameter.to_bytes p ++ (vb ++ [ETX]))])))) =
      ([], CommandToken.WriteParameter a p v') := by
  have hne := eot_not_mem_write_tail a p ha vb hvc
  have hra := read_againP_not_short EOT (Address.to_bytes a ++ (STX ::
    ((Parameter.to_bytes p ++ (vb ++ [ETX])) ++
      [bcc (Parameter.to_bytes p ++ (vb ++ [ETX]))]))) (by decide) (by decide) (by decide)
  have hfle := find_last_eot_cons _ hne
  have hca := altE_first_ok write_commandP (altE read_commandP invalid_payloadP) _ _ _
    (write_commandP_ok a p ha hp vb v' htf h1 h6 hvc [])
  simp only [alt_match, hra, hfle]
  show (match command_alt _ with
    | Except.ok x => x
    | Except.error _ => (_, CommandToken.NeedData)) = _
  rw [show command_alt (EOT :: (Address.to_bytes a ++ (STX ::
      ((Parameter.to_bytes p ++ (vb ++ [ETX])) ++
        [bcc (Parameter.to_bytes p ++ (vb ++ [ETX]))])))) =
      Except.ok ([], CommandToken.WriteParameter a p v') from hca]

/-- `parse_command` consumes a full write frame and yields its token. -/
theorem parse_command_write_frame (a p : Nat) (ha : a ≤ 99) (hp : p ≤ 9999)
    (vb : List Nat) (v' : Value) (htf : Value.try_from vb = some v')
    (h1 : 1 ≤ vb.length) (h6 : vb.length ≤ 6)
    (hvc : ∀ c ∈ vb, isValChar c = true) :
    parse_command (EOT :: (Address.to_bytes a ++ (STX ::
      ((Parameter.to_bytes p ++ (vb ++ [ETX])) ++
        [bcc (Parameter.to_bytes p ++ (vb ++ [ETX]))])))) =
      ((EOT :: (Address.to_bytes a ++ (STX ::
        ((Parameter.to_bytes p ++ (vb ++ [ETX])) ++
          [bcc (Parameter.to_bytes p ++ (vb ++ [ETX]))])))).length,
        CommandToken.WriteParameter a p v') := by
  unfold parse_command
  rw [alt_match_write_frame a p ha hp vb v' htf h1 h6 hvc]
  simp

/-! ## Lemmas: buffer behaviour on the modelled paths -/

theorem nulMap_id_of_7bit (l : List Nat) (h : ∀ b ∈ l, b ≤ 0x7f) :
    l.map nulMap = l := by
  induction l with
  | nil => rfl
  | cons x xs ih =>
    have hx := h x (List.mem_cons_self x xs)
    simp only [List.map_cons, nulMap, if_neg (by omega : ¬(0x7f < x)),
      ih (fun b hb => h b (List.mem_cons_of_mem x hb))]

/-- Writing 7-bit data into a fresh buffer just stores it. -/
theorem buffer_write_new (l : List Nat) (h7 : ∀ b ∈ l, b ≤ 0x7f)
    (hlen : l.length ≤ 40) : Buffer.new.write l = ⟨l, 0⟩ := by
  unfold Buffer.write Buffer.new
  simp only [if_pos rfl]
  rw [if_neg (by simp [BUF_CAP]; omega)]
  simp only [List.length_nil, Nat.sub_zero]
  rw [if_neg (by simp [BUF_CAP]; omega)]
  simp [nulMap_id_of_7bit l h7]

theorem buffer_as_ref_zero (l : List Nat) : Buffer.as_ref ⟨l, 0⟩ = l := by
  simp [Buffer.as_ref]

/-! ## Lemmas: frame bytes are 7-bit -/

theorem read_frame_7bit (a p : Nat) (ha : a ≤ 99) :
    ∀ b ∈ EOT :: (Address.to_bytes a ++ (Parameter.to_bytes p ++ [ENQ])), b ≤ 0x7f := by
  intro b hb
  rcases List.mem_cons.mp hb with rfl | hm
  · decide
  · rcases List.mem_append.mp hm with hm2 | hm2
    · have := (isDigit_iff b).mp (addr_bytes_digits a ha b hm2); omega
    · rcases List.mem_append.mp hm2 with hm3 | hm3
      · have := (isDigit_iff b).mp (param_bytes_digits p b hm3); omega
      · simp only [List.mem_singleton] at hm3; subst hm3; decide

theorem write_frame_7bit (a p : Nat) (ha : a ≤ 99) (vb : List Nat)
    (hvc : ∀ c ∈ vb, isValChar c = true) :
    ∀ b ∈ EOT :: (Address.to_bytes a ++ (STX ::
      ((Parameter.to_bytes p ++ (vb ++ [ETX])) ++
        [bcc (Parameter.to_bytes p ++ (vb ++ [ETX]))]))), b ≤ 0x7f := by
  have hbcc := bcc_range _ (by
    intro b hb
    exact span_7bit p vb hvc b hb)
  intro b hb
  rcases List.mem_cons.mp hb with rfl | hm
  · decide
  · rcases List.mem_append.mp hm with hm2 | hm2
    · have := (isDigit_iff b).mp (addr_bytes_digits a ha b hm2); omega
    · rcases List.mem_cons.mp hm2 with rfl | hm3
      · decide
      · rcases List.mem_append.mp hm3 with hm4 | hm4
        · have := span_7bit p vb hvc b hm4; omega
        · simp only [List.mem_singleton] at hm4; subst hm4; omega

theorem resp_frame_7bit (p : Nat) (vb : List Nat)
    (hvc : ∀ c ∈ vb, isValChar c = true) :
    ∀ b ∈ STX :: ((Parameter.to_bytes p ++ (vb ++ [ETX])) ++
      [bcc (Parameter.to_bytes p ++ (vb ++ [ETX]))]), b ≤ 0x7f := by
  have hbcc := bcc_range _ (by
    intro b hb
    exact span_7bit p vb hvc b hb)
  intro b hb
  rcases List.mem_cons.mp hb with rfl | hm
  · decide
  · rcases List.mem_append.mp hm with hm2 | hm2
    · have := span_7bit p vb hvc b hm2; omega
    · simp only [List.mem_singleton] at hm2; subst hm2; omega

/-- `write_frame` in canonical associativity. -/
theorem write_frame_eq (a p : Nat) (v : Value) (vb : List Nat)
    (hb : v.to_bytes = some vb) :
    write_frame a p v = some (EOT :: (Address.to_bytes a ++ (STX ::
      ((Parameter.to_bytes p ++ (vb ++ [ETX])) ++
        [bcc (Parameter.to_bytes p ++ (vb ++ [ETX]))])))) := by
  simp only [write_frame, hb, Option.map_some']
  have hdrop : (EOT :: Address.to_bytes a ++ [STX] ++ Parameter.to_bytes p ++ vb ++
      [ETX]).drop 6 = Parameter.to_bytes p ++ (vb ++ [ETX]) := by
    rw [show EOT :: Address.to_bytes a ++ [STX] ++ Parameter.to_bytes p ++ vb ++ [ETX] =
      (EOT :: Address.to_bytes a ++ [STX]) ++ (Parameter.to_bytes p ++ (vb ++ [ETX]))
      by simp,
      show (6 : Nat) = (EOT :: Address.to_bytes a ++ [STX]).length
      by simp [Address.to_bytes]]
    exact List.drop_left _ _
  rw [hdrop]
  simp [List.append_assoc]

/-! ## Claim C7 (BCC) -/

/-- C7 (corrected): `bcc` is the XOR-fold with the +0x20 adjustment, and
on 7-bit byte sequences its result lies in [0x20, 0x7F].  (On arbitrary
u8 sequences the upper bound fails, see the counterexample.) -/
theorem claim_C7 (l : List Nat) (h : ∀ b ∈ l, b < 0x80) :
    bcc l = (let c := l.foldl (fun acc b => acc ^^^ b) 0
             if c < 0x20 then c + 0x20 else c) ∧
    0x20 ≤ bcc l ∧ bcc l ≤ 0x7f :=
  ⟨rfl, bcc_range l h⟩

/-- C7 witness at a concrete two-byte input. -/
theorem claim_C7_witness :
    (∀ b ∈ [0x31, 0x32], b < 0x80) ∧
    (bcc [0x31, 0x32] = (let c := [0x31, 0x32].foldl (fun acc b => acc ^^^ b) 0
             if c < 0x20 then c + 0x20 else c) ∧
     0x20 ≤ bcc [0x31, 0x32] ∧ bcc [0x31, 0x32] ≤ 0x7f) :=
  ⟨by decide, claim_C7 [0x31, 0x32] (by decide)⟩

/-- C7 counterexample: for the byte 0x80 the result 0x80 escapes
[0x20, 0x7F], so the claim is false for arbitrary byte sequences. -/
theorem claim_C7_counterexample : bcc [0x80] = 0x80 ∧ ¬(bcc [0x80] ≤ 0x7f) := by
  decide

/-! ## Claim C8 (Value round-trip) -/

/-- C8 (confirmed): for every valid `Value` in either format,
`Value::to_bytes` succeeds and reparsing the bytes yields the same
underlying integer; every valid Wide value encodes to exactly six
bytes. -/
theorem claim_C8 (v : Value) (hv : ValidValue v) :
    ∃ bs, v.to_bytes = some bs ∧
      (∃ v', Value.try_from bs = some v' ∧ v'.val = v.val) ∧
      (v.fmt = ValueFormat.Wide → bs.length = 6) := by
  obtain ⟨bs, hbs, h1, h6, hvc, hparse, hwide⟩ := value_to_bytes_spec v hv
  obtain ⟨v', htf, hval⟩ := value_try_from_parse bs v.val hparse h1 h6
  exact ⟨bs, hbs, ⟨v', htf, hval⟩, hwide⟩

/-- C8 witness at the Wide value −54321. -/
theorem claim_C8_witness :
    ∃ bs, (Value.mk (-54321) ValueFormat.Wide).to_bytes = some bs ∧
      (∃ v', Value.try_from bs = some v' ∧ v'.val = -54321) ∧
      (ValueFormat.Wide = ValueFormat.Wide → bs.length = 6) :=
  claim_C8 ⟨-54321, ValueFormat.Wide⟩ (by
    refine ⟨by norm_num, by norm_num, fun _ => by norm_num⟩)

/-! ## Claim C1 (write command round-trip) -/

/-- C1 (confirmed): encoding a write command for valid `(a, p, v)` and
parsing the emitted bytes with the node-side `parse_command` yields
`WriteParameter(a, p, v)` (`Value` equality in the crate compares the
integer), with `consumed` equal to the full frame length. -/
theorem claim_C1 (a p : Nat) (v : Value) (ha : a ≤ 99) (hp : p ≤ 9999)
    (hv : ValidValue v) :
    ∃ bs v', write_frame a p v = some bs ∧ v'.val = v.val ∧
      parse_command bs = (bs.length, CommandToken.WriteParameter a p v') := by
  obtain ⟨vb, hvb, h1, h6, hvc, hparse, -⟩ := value_to_bytes_spec v hv
  obtain ⟨v', htf, hval⟩ := value_try_from_parse vb v.val hparse h1 h6
  exact ⟨_, v', write_frame_eq a p v vb hvb, hval,
    parse_command_write_frame a p ha hp vb v' htf h1 h6 hvc⟩

/-- C1 witness: the repository's own test vector 43/1234 ≔ 56. -/
theorem claim_C1_witness :
    ∃ bs v', write_frame 43 1234 ⟨56, ValueFormat.Normal⟩ = some bs ∧
      v'.val = 56 ∧
      parse_command bs = (bs.length, CommandToken.WriteParameter 43 1234 v') :=
  claim_C1 43 1234 ⟨56, ValueFormat.Normal⟩ (by norm_num) (by norm_num)
    ⟨by norm_num, by norm_num, fun h => by simp at h⟩

/-! ## Lemmas: the node parse loop on single-token buffers -/

theorem parse_command_single (b : Nat) (tok : CommandToken)
    (h : read_againP [b] = Except.ok ([], tok)) : parse_command [b] = (1, tok) := by
  unfold parse_command
  simp only [alt_match, h]
  simp

theorem parse_buffer_loop_total (buffer : Buffer) (rap : Option (Nat × Nat))
    (tok : CommandToken) (len : Nat) (hpc : parse_command buffer.as_ref = (len, tok))
    (hpos : 0 < len) (hlen : buffer.len ≤ len) :
    parse_buffer_loop 41 buffer rap = (some (tok, rap), buffer.consume len, none) := by
  rw [show (41 : Nat) = 40 + 1 from rfl]
  simp only [parse_buffer_loop, hpc]
  rw [if_neg (by omega)]
  rw [if_pos (by
    simp only [Buffer.len, Buffer.consume] at hlen ⊢
    omega)]

theorem node_parse_buffer_token (n : Node) (tok : CommandToken) (len : Nat)
    (hpc : parse_command n.buffer.as_ref = (len, tok)) (hpos : 0 < len)
    (hlen : n.buffer.len ≤ len) :
    Node.parse_buffer n = node_dispatch
      { n with buffer := n.buffer.consume len, read_again_param := none }
      tok n.read_again_param := by
  unfold Node.parse_buffer
  rw [parse_buffer_loop_total n.buffer n.read_again_param tok len hpc hpos hlen]

deriving instance DecidableEq for Except

/-! ## Claim C3 (write response mapping) -/

/-- C3 (corrected): on single response bytes, ACK yields `Ok`, NAK
yields `CommandFailed`, EOT also yields `CommandFailed` (the claimed
`InvalidParameter` is wrong: the code maps both rejection tokens to
`CommandFailed`), and any other byte yields `ProtocolError`. -/
theorem claim_C3 :
    receive_write_response Buffer.new [ACK] = Except.ok () ∧
    receive_write_response Buffer.new [NAK] =
      Except.error Master.Error.CommandFailed ∧
    receive_write_response Buffer.new [EOT] =
      Except.error Master.Error.CommandFailed ∧
    (∀ b, b < 256 → ¬(b = ACK) → ¬(b = NAK) → ¬(b = EOT) →
      receive_write_response Buffer.new [b] =
        Except.error Master.Error.ProtocolError) := by
  refine ⟨by decide, by decide, by decide, ?_⟩
  decide

/-- C3 witness at the concrete other byte 0x30. -/
theorem claim_C3_witness :
    receive_write_response Buffer.new [0x30] =
      Except.error Master.Error.ProtocolError :=
  claim_C3.2.2.2 0x30 (by decide) (by decide) (by decide) (by decide)

/-- C3 counterexample: a single EOT yields `CommandFailed`, not the
claimed `InvalidParameter`. -/
theorem claim_C3_counterexample :
    receive_write_response Buffer.new [EOT] =
      Except.error Master.Error.CommandFailed ∧
    ¬(receive_write_response Buffer.new [EOT] =
      Except.error Master.Error.InvalidParameter) := by
  decide

/-! ## Claim C4 (read response mapping) -/

/-- Evaluation of `ReceiveReadResponse::receive_data` on a fresh buffer. -/
theorem receive_read_eval (m : Master) (addr expab : Nat) (data : List Nat)
    (h7 : ∀ b ∈ data, b ≤ 0x7f) (hlen : data.length ≤ 40) :
    ReceiveReadResponse.receive_data ⟨m, Buffer.new, addr, expab⟩ data =
      match parse_read_response data with
      | ResponseToken.NeedData => ReadProgress.NeedData ⟨m, ⟨data, 0⟩, addr, expab⟩
      | ResponseToken.ReadOk parameter value =>
        if parameter = expab then
          ReadProgress.Done { m with read_again := some (addr, parameter) }
            (Except.ok value)
        else ReadProgress.Done m (Except.error Master.Error.ProtocolError)
      | ResponseToken.InvalidParameter =>
        ReadProgress.Done m (Except.error Master.Error.InvalidParameter)
      | _ => ReadProgress.Done m (Except.error Master.Error.ProtocolError) := by
  simp only [ReceiveReadResponse.receive_data]
  rw [buffer_write_new data h7 hlen, buffer_as_ref_zero]

/-- C4 (confirmed): for the controller receiving a read response, EOT
maps to `InvalidParameter`; a well-formed `STX param value ETX BCC`
frame with the expected parameter yields `Ok(value)` and records the
read-again context `(address, parameter)`; a parameter mismatch or a
corrupted BCC byte yields `ProtocolError`. -/
theorem claim_C4 (m : Master) (addr p : Nat) (hp : p ≤ 9999) (v : Value)
    (hv : ValidValue v) :
    (ReceiveReadResponse.receive_data ⟨m, Buffer.new, addr, p⟩ [EOT] =
      ReadProgress.Done m (Except.error Master.Error.InvalidParameter)) ∧
    (∃ frame v', read_response_frame p v = some frame ∧ v'.val = v.val ∧
      ReceiveReadResponse.receive_data ⟨m, Buffer.new, addr, p⟩ frame =
        ReadProgress.Done { m with read_again := some (addr, p) } (Except.ok v')) ∧
    (∀ p2, p2 ≤ 9999 → ¬(p2 = p) → ∃ frame, read_response_frame p2 v = some frame ∧
      ReceiveReadResponse.receive_data ⟨m, Buffer.new, addr, p⟩ frame =
        ReadProgress.Done m (Except.error Master.Error.ProtocolError)) ∧
    (∀ b, b ≤ 0x7f → ∃ vb, v.to_bytes = some vb ∧
      (¬(bcc (Parameter.to_bytes p ++ (vb ++ [ETX])) = b) →
        ReceiveReadResponse.receive_data ⟨m, Buffer.new, addr, p⟩
          (STX :: ((Parameter.to_bytes p ++ (vb ++ [ETX])) ++ [b])) =
          ReadProgress.Done m (Except.error Master.Error.ProtocolError))) := by
  obtain ⟨vb, hvb, h1, h6, hvc, hparse, -⟩ := value_to_bytes_spec v hv
  obtain ⟨v', htf, hval⟩ := value_try_from_parse vb v.val hparse h1 h6
  refine ⟨?_, ?_, ?_, ?_⟩
  · rw [receive_read_eval m addr p [EOT] (by decide) (by decide)]
    rfl
  · refine ⟨_, v', read_response_frame_eq p v vb hvb, hval, ?_⟩
    rw [receive_read_eval m addr p _ (resp_frame_7bit p vb hvc)
      (by simp [Parameter.to_bytes]; omega)]
    rw [parse_read_response_ok p hp vb v' htf h1 h6 hvc]
    simp
  · intro p2 hp2 hne
    refine ⟨_, read_response_frame_eq p2 v vb hvb, ?_⟩
    rw [receive_read_eval m addr p _ (resp_frame_7bit p2 vb hvc)
      (by simp [Parameter.to_bytes]; omega)]
    rw [parse_read_response_ok p2 hp2 vb v' htf h1 h6 hvc]
    simp only [if_neg hne]
  · intro b hb
    refine ⟨vb, hvb, fun hbcc => ?_⟩
    rw [receive_read_eval m addr p _ (by
        intro c hc
        rcases List.mem_cons.mp hc with rfl | hm
        · decide
        · rcases List.mem_append.mp hm with hm2 | hm2
          · exact Nat.le_of_lt_succ (by
              have := span_7bit p vb hvc c hm2
              omega)
          · simp only [List.mem_singleton] at hm2
            subst hm2
            exact hb)
      (by simp [Parameter.to_bytes]; omega)]
    rw [parse_read_response_badbcc p hp vb v' htf h1 h6 hvc b hbcc]

/-- C4 witness: part one at concrete inputs. -/
theorem claim_C4_witness :
    ReceiveReadResponse.receive_data ⟨Master.new, Buffer.new, 10, 20⟩ [EOT] =
      ReadProgress.Done Master.new (Except.error Master.Error.InvalidParameter) :=
  (claim_C4 Master.new 10 20 (by norm_num) ⟨5, ValueFormat.Normal⟩
    ⟨by norm_num, by norm_num, fun h => by simp at h⟩).1

/-! ## Claim C2 (read_parameter and the short form) -/

/-- C2 (corrected): `Master::read_parameter` always consumes (clears)
the read-again context, and it emits the single short-form byte
NAK/ACK/BS exactly when the previous successful read targeted the same
address with read-again enabled and the new parameter differs by
0 / +1 / −1: when such a context exists the matching short byte IS
emitted, and when none exists the long frame is emitted. -/
theorem claim_C2 (m : Master) (a p : Nat) :
    ((m.read_parameter a p).1.master.read_again = none) ∧
    (∀ op, m.read_again = some (a, op) → m.nodes a = true →
      (((p : Int) - (op : Int) = 0 → (m.read_parameter a p).2 = [NAK]) ∧
       ((p : Int) - (op : Int) = 1 → (m.read_parameter a p).2 = [ACK]) ∧
       ((p : Int) - (op : Int) = -1 → (m.read_parameter a p).2 = [BS]) ∧
       (¬((p : Int) - (op : Int) = 0) → ¬((p : Int) - (op : Int) = 1) →
         ¬((p : Int) - (op : Int) = -1) →
         (m.read_parameter a p).2 = read_frame a p))) ∧
    ((¬∃ op, m.read_again = some (a, op) ∧ m.nodes a = true ∧
        ((p : Int) - (op : Int) = 0 ∨ (p : Int) - (op : Int) = 1 ∨
         (p : Int) - (op : Int) = -1)) →
      (m.read_parameter a p).2 = read_frame a p) := by
  unfold Master.read_parameter Master.try_read_again
  cases hra : m.read_again with
  | none =>
    refine ⟨hra, ?_, ?_⟩
    · intro op hop
      exact absurd hop (by simp)
    · intro _
      rfl
  | some pair =>
    obtain ⟨oa, op0⟩ := pair
    dsimp only
    by_cases h1 : oa = a ∧ m.nodes a = true
    · rw [if_pos (by exact ⟨h1.1, h1.2⟩)]
      by_cases h0 : (p : Int) - (op0 : Int) = 0
      · rw [if_pos h0]
        refine ⟨rfl, ?_, ?_⟩
        · intro op hop hn
          simp only [Option.some.injEq, Prod.mk.injEq] at hop
          obtain ⟨hoa, hop2⟩ := hop
          subst hop2
          exact ⟨fun _ => rfl, fun hd => absurd hd (by omega),
            fun hd => absurd hd (by omega), fun hn0 _ _ => absurd h0 hn0⟩
        · intro hnex
          exact absurd ⟨op0, by rw [h1.1], h1.2, Or.inl h0⟩ hnex
      · rw [if_neg h0]
        by_cases hp1 : (p : Int) - (op0 : Int) = 1
        · rw [if_pos hp1]
          refine ⟨rfl, ?_, ?_⟩
          · intro op hop hn
            simp only [Option.some.injEq, Prod.mk.injEq] at hop
            obtain ⟨hoa, hop2⟩ := hop
            subst hop2
            exact ⟨fun hd => absurd hd (by omega), fun _ => rfl,
              fun hd => absurd hd (by omega), fun _ hn1 _ => absurd hp1 hn1⟩
          · intro hnex
            exact absurd ⟨op0, by rw [h1.1], h1.2, Or.inr (Or.inl hp1)⟩ hnex
        · rw [if_neg hp1]
          by_cases hm1 : (p : Int) - (op0 : Int) = -1
          · rw [if_pos hm1]
            refine ⟨rfl, ?_, ?_⟩
            · intro op hop hn
              simp only [Option.some.injEq, Prod.mk.injEq] at hop
              obtain ⟨hoa, hop2⟩ := hop
              subst hop2
              exact ⟨fun hd => absurd hd (by omega), fun hd => absurd hd (by omega),
                fun _ => rfl, fun _ _ hn2 => absurd hm1 hn2⟩
            · intro hnex
              exact absurd ⟨op0, by rw [h1.1], h1.2, Or.inr (Or.inr hm1)⟩ hnex
          · rw [if_neg hm1]
            refine ⟨rfl, ?_, ?_⟩
            · intro op hop hn
              simp only [Option.some.injEq, Prod.mk.injEq] at hop
              obtain ⟨hoa, hop2⟩ := hop
              subst hop2
              exact ⟨fun hd => absurd hd h0, fun hd => absurd hd hp1,
                fun hd => absurd hd hm1, fun _ _ _ => rfl⟩
            · intro _
              rfl
    · rw [if_neg (by
        intro hc
        exact h1 ⟨hc.1, hc.2⟩)]
      refine ⟨rfl, ?_, ?_⟩
      · intro op hop hn
        simp only [Option.some.injEq, Prod.mk.injEq] at hop
        exact absurd ⟨hop.1, hn⟩ h1
      · intro _
        rfl

/-- C2 witness at a concrete master whose read-again context (address
10, parameter 20, node 10 enabled) makes the ACK clause fire for
parameter 21. -/
theorem claim_C2_witness :
    (((Master.mk (some (10, 20)) (fun x => x == 10)).read_parameter
        10 21).1.master.read_again = none) ∧
    (∀ op, (Master.mk (some (10, 20)) (fun x => x == 10)).read_again =
        some (10, op) →
      (Master.mk (some (10, 20)) (fun x => x == 10)).nodes 10 = true →
      ((((21 : Nat) : Int) - (op : Int) = 0 →
          ((Master.mk (some (10, 20)) (fun x => x == 10)).read_parameter
            10 21).2 = [NAK]) ∧
       (((21 : Nat) : Int) - (op : Int) = 1 →
          ((Master.mk (some (10, 20)) (fun x => x == 10)).read_parameter
            10 21).2 = [ACK]) ∧
       (((21 : Nat) : Int) - (op : Int) = -1 →
          ((Master.mk (some (10, 20)) (fun x => x == 10)).read_parameter
            10 21).2 = [BS]) ∧
       (¬(((21 : Nat) : Int) - (op : Int) = 0) →
         ¬(((21 : Nat) : Int) - (op : Int) = 1) →
         ¬(((21 : Nat) : Int) - (op : Int) = -1) →
         ((Master.mk (some (10, 20)) (fun x => x == 10)).read_parameter
           10 21).2 = read_frame 10 21))) ∧
    ((¬∃ op, (Master.mk (some (10, 20)) (fun x => x == 10)).read_again =
        some (10, op) ∧
        (Master.mk (some (10, 20)) (fun x => x == 10)).nodes 10 = true ∧
        (((21 : Nat) : Int) - (op : Int) = 0 ∨
         ((21 : Nat) : Int) - (op : Int) = 1 ∨
         ((21 : Nat) : Int) - (op : Int) = -1)) →
      ((Master.mk (some (10, 20)) (fun x => x == 10)).read_parameter
        10 21).2 = read_frame 10 21) :=
  claim_C2 (Master.mk (some (10, 20)) (fun x => x == 10)) 10 21

/-- C2 counterexample: after enabling read-again for node 10, issuing a
long read of parameter 20 and receiving a valid reply, the next
`read_parameter` for parameter 21 emits the single byte ACK — not the
long-form frame the claim demands. -/
theorem claim_C2_counterexample :
    ((((Master.new.read_again_enable 10 true).read_parameter 10 20).1.receive_data
        ((read_response_frame 20 ⟨5, ValueFormat.Normal⟩).getD [])).get_master.read_parameter
        10 21).2 = [ACK] ∧
    ¬((((Master.new.read_again_enable 10 true).read_parameter 10 20).1.receive_data
        ((read_response_frame 20 ⟨5, ValueFormat.Normal⟩).getD [])).get_master.read_parameter
        10 21).2 = read_frame 10 21 := by
  decide

/-! ## Claim C10 (short form only when enabled) -/

/-- C10 (confirmed): a master whose per-node capability table is all
false — exactly the state `Master::new` creates, whatever the read-again
context — always emits the long-form frame; conversely, emitting
anything other than the long frame requires `can_read_again` to have
been enabled for that address. -/
theorem claim_C10 :
    (∀ ra a p, ((Master.mk ra (fun _ => false)).read_parameter a p).2 =
      read_frame a p) ∧
    (∀ (m : Master) a p, ¬((m.read_parameter a p).2 = read_frame a p) →
      m.nodes a = true) := by
  constructor
  · intro ra a p
    cases ra with
    | none => rfl
    | some pair =>
      obtain ⟨oa, op⟩ := pair
      unfold Master.read_parameter Master.try_read_again
      dsimp only
      rw [if_neg (by
        intro hc
        exact absurd hc.2 (by simp))]
  · intro m a p hne
    unfold Master.read_parameter Master.try_read_again at hne
    cases hra : m.read_again with
    | none =>
      rw [hra] at hne
      exact absurd rfl hne
    | some pair =>
      obtain ⟨oa, op⟩ := pair
      rw [hra] at hne
      dsimp only at hne
      by_cases h1 : oa = a ∧ m.nodes a = true
      · exact h1.2
      · rw [if_neg (fun hc => h1 ⟨hc.1, hc.2⟩)] at hne
        exact absurd rfl hne

/-- C10 witness: a fresh master emits the long frame. -/
theorem claim_C10_witness :
    ((Master.mk (some (43, 1233)) (fun _ => false)).read_parameter 43 1234).2 =
      read_frame 43 1234 :=
  claim_C10.1 (some (43, 1233)) 43 1234

/-! ## Claim C5 (node short-form reads) -/

/-- Receiving one short-form byte in `Recv` with an empty buffer:
the token is dispatched against the taken read-again context. -/
theorem node_receive_short (na : Nat) (rap : Option (Nat × Nat)) (b : Nat)
    (tok : CommandToken) (h : read_againP [b] = Except.ok ([], tok)) (hb : b ≤ 0x7f) :
    Node.receive_data ⟨InternalState.Recv, na, rap, Buffer.new⟩ [b] =
      node_dispatch ⟨InternalState.Recv, na, none, ⟨[b], 0 + 1⟩⟩ tok rap := by
  have hw : Buffer.new.write [b] = ⟨[b], 0⟩ :=
    buffer_write_new [b] (by
      intro c hc
      simp only [List.mem_singleton] at hc
      omega) (by simp)
  unfold Node.receive_data
  dsimp only
  rw [hw]
  rw [node_parse_buffer_token ⟨InternalState.Recv, na, rap, ⟨[b], 0⟩⟩ tok 1
    (by dsimp only [Buffer.as_ref]; simpa using parse_command_single b tok h)
    (by omega)
    (by dsimp only [Buffer.len]; simp)]
  rfl

/-- C5 (confirmed): with a live read-again context `(A, P)`, ACK moves
the node to serving a read of `(A, P+1)`, NAK of `(A, P)`, BS of
`(A, P−1)`; at the range ends (ACK at 9999, BS at 0) the node answers
with a single EOT; without a live context the short-form byte is
silently ignored and the node remains in `ReceiveData`. -/
theorem claim_C5 (na A P : Nat) (hP : P ≤ 9999) :
    (P < 9999 →
      (Node.receive_data ⟨InternalState.Recv, na, some (A, P), Buffer.new⟩
        [ACK]).state = InternalState.Read A (P + 1)) ∧
    ((Node.receive_data ⟨InternalState.Recv, na, some (A, P), Buffer.new⟩
        [NAK]).state = InternalState.Read A P) ∧
    (0 < P →
      (Node.receive_data ⟨InternalState.Recv, na, some (A, P), Buffer.new⟩
        [BS]).state = InternalState.Read A (P - 1)) ∧
    (P = 9999 →
      (Node.receive_data ⟨InternalState.Recv, na, some (A, P), Buffer.new⟩
        [ACK]).state = InternalState.Send ∧
      (Node.receive_data ⟨InternalState.Recv, na, some (A, P), Buffer.new⟩
        [ACK]).buffer.as_ref = [EOT]) ∧
    (P = 0 →
      (Node.receive_data ⟨InternalState.Recv, na, some (A, P), Buffer.new⟩
        [BS]).state = InternalState.Send ∧
      (Node.receive_data ⟨InternalState.Recv, na, some (A, P), Buffer.new⟩
        [BS]).buffer.as_ref = [EOT]) ∧
    (∀ b, b = ACK ∨ b = NAK ∨ b = BS →
      (Node.receive_data ⟨InternalState.Recv, na, none, Buffer.new⟩ [b]).state =
        InternalState.Recv ∧
      (Node.receive_data ⟨InternalState.Recv, na, none, Buffer.new⟩
        [b]).read_again_param = none ∧
      (Node.receive_data ⟨InternalState.Recv, na, none, Buffer.new⟩
        [b]).buffer.as_ref = []) := by
  have hack := node_receive_short na (some (A, P)) ACK (CommandToken.ReadAgain 1)
    (read_againP_ack []) (by decide)
  have hnak := node_receive_short na (some (A, P)) NAK (CommandToken.ReadAgain 0)
    (read_againP_nak []) (by decide)
  have hbs := node_receive_short na (some (A, P)) BS (CommandToken.ReadAgain (-1))
    (read_againP_bs []) (by decide)
  have ht1 : read_again_target P 1 = Parameter.next P := by
    unfold read_again_target
    rw [if_neg (by decide), if_pos rfl]
  have ht0 : read_again_target P 0 = some P := by
    unfold read_again_target
    rw [if_neg (by decide), if_neg (by decide)]
  have htm : read_again_target P (-1) = Parameter.prev P := by
    unfold read_again_target
    rw [if_pos rfl]
  refine ⟨?_, ?_, ?_, ?_, ?_, ?_⟩
  · intro hlt
    rw [hack]
    simp only [node_dispatch, ht1]
    unfold Parameter.next
    rw [if_pos hlt]
  · rw [hnak]
    simp only [node_dispatch, ht0]
  · intro hpos
    rw [hbs]
    simp only [node_dispatch, htm]
    unfold Parameter.prev
    rw [if_pos hpos]
  · intro h9999
    subst h9999
    rw [hack]
    simp only [node_dispatch, ht1]
    unfold Parameter.next
    rw [if_neg (by omega)]
    exact ⟨rfl, rfl⟩
  · intro h0
    subst h0
    rw [hbs]
    simp only [node_dispatch, htm]
    unfold Parameter.prev
    rw [if_neg (by omega)]
    exact ⟨rfl, rfl⟩
  · intro b hb
    rcases hb with rfl | rfl | rfl
    · rw [node_receive_short na none ACK (CommandToken.ReadAgain 1)
        (read_againP_ack []) (by decide)]
      exact ⟨rfl, rfl, rfl⟩
    · rw [node_receive_short na none NAK (CommandToken.ReadAgain 0)
        (read_againP_nak []) (by decide)]
      exact ⟨rfl, rfl, rfl⟩
    · rw [node_receive_short na none BS (CommandToken.ReadAgain (-1))
        (read_againP_bs []) (by decide)]
      exact ⟨rfl, rfl, rfl⟩

/-- C5 witness at node address 10, context (10, 20). -/
theorem claim_C5_witness :
    (Node.receive_data ⟨InternalState.Recv, 10, some (10, 20), Buffer.new⟩
      [ACK]).state = InternalState.Read 10 21 :=
  (claim_C5 10 10 20 (by norm_num)).1 (by norm_num)

/-! ## Claim C6 (address filtering) -/

/-- Receiving one complete command frame in `Recv` with an empty
buffer: the token is dispatched against the taken read-again context. -/
theorem node_receive_frame (na : Nat) (rap : Option (Nat × Nat)) (data : List Nat)
    (tok : CommandToken) (h7 : ∀ b ∈ data, b ≤ 0x7f) (hlen : data.length ≤ 40)
    (hpc : parse_command data = (data.length, tok)) (hpos : 0 < data.length) :
    Node.receive_data ⟨InternalState.Recv, na, rap, Buffer.new⟩ data =
      node_dispatch ⟨InternalState.Recv, na, none, ⟨data, 0 + data.length⟩⟩ tok rap := by
  have hw := buffer_write_new data h7 hlen
  unfold Node.receive_data
  dsimp only
  rw [hw]
  rw [node_parse_buffer_token ⟨InternalState.Recv, na, rap, ⟨data, 0⟩⟩ tok data.length
    (by dsimp only [Buffer.as_ref]; simpa using hpc)
    hpos
    (by dsimp only [Buffer.len]; simp)]
  rfl

/-- C6 (corrected): a complete read or write command addressed to a
different node (this node's address nonzero) produces no reply and no
state transition — the machine stays in `ReceiveData` with its address
intact and an empty reply buffer — but the read-again context is NOT
left unchanged: the parse loop consumes (clears) it. -/
theorem claim_C6 (na A p : Nat) (rap : Option (Nat × Nat)) (hne : ¬(na = A))
    (hnz : ¬(na = 0)) (ha : A ≤ 99) (hp : p ≤ 9999) :
    ((Node.receive_data ⟨InternalState.Recv, na, rap, Buffer.new⟩
        (EOT :: (Address.to_bytes A ++ (Parameter.to_bytes p ++ [ENQ])))).state =
          InternalState.Recv ∧
      (Node.receive_data ⟨InternalState.Recv, na, rap, Buffer.new⟩
        (EOT :: (Address.to_bytes A ++ (Parameter.to_bytes p ++ [ENQ])))).address = na ∧
      (Node.receive_data ⟨InternalState.Recv, na, rap, Buffer.new⟩
        (EOT :: (Address.to_bytes A ++ (Parameter.to_bytes p ++ [ENQ])))).read_again_param =
          none ∧
      (Node.receive_data ⟨InternalState.Recv, na, rap, Buffer.new⟩
        (EOT :: (Address.to_bytes A ++ (Parameter.to_bytes p ++ [ENQ])))).buffer.as_ref =
          []) ∧
    (∀ v : Value, ValidValue v → ∃ bs, write_frame A p v = some bs ∧
      (Node.receive_data ⟨InternalState.Recv, na, rap, Buffer.new⟩ bs).state =
          InternalState.Recv ∧
      (Node.receive_data ⟨InternalState.Recv, na, rap, Buffer.new⟩ bs).address = na ∧
      (Node.receive_data ⟨InternalState.Recv, na, rap, Buffer.new⟩
        bs).read_again_param = none ∧
      (Node.receive_data ⟨InternalState.Recv, na, rap, Buffer.new⟩
        bs).buffer.as_ref = []) := by
  have hforus : ∀ (x : Node), x.address = na →
      Node.for_us x A = false := by
    intro x hx
    simp only [Node.for_us, hx]
    simp [hne, hnz]
  constructor
  · rw [node_receive_frame na rap _ (CommandToken.ReadParameter A p)
      (read_frame_7bit A p ha)
      (by simp [Address.to_bytes, Parameter.to_bytes])
      (parse_command_read_frame A p ha hp)
      (by simp)]
    simp only [node_dispatch]
    rw [if_neg (by rw [hforus _ rfl]; simp)]
    refine ⟨rfl, rfl, rfl, ?_⟩
    simp [Buffer.as_ref]
  · intro v hv
    obtain ⟨vb, hvb, h1, h6, hvc, hparse, -⟩ := value_to_bytes_spec v hv
    obtain ⟨v', htf, hval⟩ := value_try_from_parse vb v.val hparse h1 h6
    refine ⟨_, write_frame_eq A p v vb hvb, ?_⟩
    rw [node_receive_frame na rap _ (CommandToken.WriteParameter A p v')
      (write_frame_7bit A p ha vb hvc)
      (by simp [Address.to_bytes, Parameter.to_bytes]; omega)
      (parse_command_write_frame A p ha hp vb v' htf h1 h6 hvc)
      (by simp)]
    simp only [node_dispatch]
    rw [if_neg (by rw [hforus _ rfl]; simp)]
    refine ⟨rfl, rfl, rfl, ?_⟩
    simp [Buffer.as_ref]

/-- C6 witness at concrete inputs (read command for 11/7 arriving at
node 10). -/
theorem claim_C6_witness :
    (Node.receive_data ⟨InternalState.Recv, 10, some (10, 5), Buffer.new⟩
        (EOT :: (Address.to_bytes 11 ++ (Parameter.to_bytes 7 ++ [ENQ])))).state =
      InternalState.Recv :=
  ((claim_C6 10 11 7 (some (10, 5)) (by norm_num) (by norm_num) (by norm_num)
    (by norm_num)).1).1

/-- C6 counterexample: the same scenario shows the tracking state is
NOT unchanged — the live read-again context `(10, 5)` is wiped by the
foreign command. -/
theorem claim_C6_counterexample :
    ((⟨InternalState.Recv, 10, some (10, 5), Buffer.new⟩ : Node).read_again_param =
      some (10, 5)) ∧
    (Node.receive_data ⟨InternalState.Recv, 10, some (10, 5), Buffer.new⟩
        (read_frame 11 7)).read_again_param = none := by
  decide

/-! ## Claim C9 (streaming prefixes) -/

theorem isDigit_add30 (x : Nat) (h : x ≤ 9) : isDigit (0x30 + x) = true := by
  rw [isDigit_iff]
  omega

/-- `take_while_m_n` reports `Incomplete` when the input, all matching,
runs out before `n` bytes. -/
theorem take_while_m_n_incomplete (m n : Nat) (p : Nat → Bool) (xs : List Nat)
    (hall : ∀ x ∈ xs, p x = true) (hlt : xs.length < n) :
    take_while_m_n m n p xs = Except.error PErr.incomplete := by
  have htw : xs.takeWhile p = xs :=
    List.takeWhile_eq_self_iff.mpr (fun x hx => hall x hx)
  unfold take_while_m_n
  simp only [htw]
  rw [if_pos trivial, if_neg (by omega)]

theorem eot_ne_digit30 (x : Nat) : ¬(EOT = 0x30 + x) := by
  simp only [EOT]
  omega

/-- C9 (corrected): on every proper prefix of a valid long-form read
command frame, `parse_command` reports `NeedData` with zero consumed
bytes.  (In general `NeedData` can come with positive `consumed` — see
the counterexample.) -/
theorem claim_C9 (a p n : Nat) (ha : a ≤ 99) (hp : p ≤ 9999)
    (hn : n < (EOT :: (Address.to_bytes a ++ (Parameter.to_bytes p ++ [ENQ]))).length) :
    parse_command ((EOT :: (Address.to_bytes a ++
      (Parameter.to_bytes p ++ [ENQ]))).take n) = (0, CommandToken.NeedData) := by
  have hlen10 : (EOT :: (Address.to_bytes a ++
      (Parameter.to_bytes p ++ [ENQ]))).length = 10 := by
    simp [Address.to_bytes, Parameter.to_bytes]
  rw [hlen10] at hn
  have hda := isDigit_add30 (a / 10) (by omega)
  have hdb := isDigit_add30 (a % 10) (by omega)
  have hq0 := isDigit_add30 (p / 1000 % 10) (by omega)
  have hq1 := isDigit_add30 (p / 100 % 10) (by omega)
  have hq2 := isDigit_add30 (p / 10 % 10) (by omega)
  have hq3 := isDigit_add30 (p % 10) (by omega)
  interval_cases n
  · rw [show (EOT :: (Address.to_bytes a ++ (Parameter.to_bytes p ++ [ENQ]))).take 0 =
      ([] : List Nat) from rfl]
    decide
  · rw [show (EOT :: (Address.to_bytes a ++ (Parameter.to_bytes p ++ [ENQ]))).take 1 =
      [EOT] from rfl]
    decide
  · rw [show (EOT :: (Address.to_bytes a ++ (Parameter.to_bytes p ++ [ENQ]))).take 2 =
      EOT :: [0x30 + a / 10] from rfl]
    unfold parse_command
    have hra := read_againP_not_short EOT [0x30 + a / 10]
      (by decide) (by decide) (by decide)
    have hfle := find_last_eot_cons [0x30 + a / 10] (by
      intro hm
      simp only [List.mem_singleton] at hm
      exact eot_ne_digit30 _ hm)
    have hca : command_alt (EOT :: [0x30 + a / 10]) = Except.error PErr.incomplete := by
      unfold command_alt
      apply altE_first_incomplete
      unfold write_commandP eot_address
      rw [ascii_char_eq, pbind_ok]
      unfold addressP
      rw [take_while_m_n_incomplete 4 4 isDigit [0x30 + a / 10]
        (by intro x hx; simp only [List.mem_singleton] at hx; subst hx; exact hda)
        (by simp), pbind_error, pbind_error]
    simp only [alt_match, hra, hfle, hca]
    simp
  · rw [show (EOT :: (Address.to_bytes a ++ (Parameter.to_bytes p ++ [ENQ]))).take 3 =
      EOT :: [0x30 + a / 10, 0x30 + a / 10] from rfl]
    unfold parse_command
    have hra := read_againP_not_short EOT [0x30 + a / 10, 0x30 + a / 10]
      (by decide) (by decide) (by decide)
    have hfle := find_last_eot_cons [0x30 + a / 10, 0x30 + a / 10] (by
      intro hm
      simp only [List.mem_cons, List.not_mem_nil, or_false] at hm
      rcases hm with h | h <;> exact eot_ne_digit30 _ h)
    have hca : command_alt (EOT :: [0x30 + a / 10, 0x30 + a / 10]) =
        Except.error PErr.incomplete := by
      unfold command_alt
      apply altE_first_incomplete
      unfold write_commandP eot_address
      rw [ascii_char_eq, pbind_ok]
      unfold addressP
      rw [take_while_m_n_incomplete 4 4 isDigit [0x30 + a / 10, 0x30 + a / 10]
        (by intro x hx
            simp only [List.mem_cons, List.not_mem_nil, or_false] at hx
            rcases hx with rfl | rfl <;> exact hda)
        (by simp), pbind_error, pbind_error]
    simp only [alt_match, hra, hfle, hca]
    simp
  · rw [show (EOT :: (Address.to_bytes a ++ (Parameter.to_bytes p ++ [ENQ]))).take 4 =
      EOT :: [0x30 + a / 10, 0x30 + a / 10, 0x30 + a % 10] from rfl]
    unfold parse_command
    have hra := read_againP_not_short EOT [0x30 + a / 10, 0x30 + a / 10, 0x30 + a % 10]
      (by decide) (by decide) (by decide)
    have hfle := find_last_eot_cons [0x30 + a / 10, 0x30 + a / 10, 0x30 + a % 10] (by
      intro hm
      simp only [List.mem_cons, List.not_mem_nil, or_false] at hm
      rcases hm with h | h | h <;> exact eot_ne_digit30 _ h)
    have hca : command_alt (EOT :: [0x30 + a / 10, 0x30 + a / 10, 0x30 + a % 10]) =
        Except.error PErr.incomplete := by
      unfold command_alt
      apply altE_first_incomplete
      unfold write_commandP eot_address
      rw [ascii_char_eq, pbind_ok]
      unfold addressP
      rw [take_while_m_n_incomplete 4 4 isDigit
        [0x30 + a / 10, 0x30 + a / 10, 0x30 + a % 10]
        (by intro x hx
            simp only [List.mem_cons, List.not_mem_nil, or_false] at hx
            rcases hx with rfl | rfl | rfl <;> first | exact hda | exact hdb)
        (by simp), pbind_error, pbind_error]
    simp only [alt_match, hra, hfle, hca]
    simp
  · rw [show (EOT :: (Address.to_bytes a ++ (Parameter.to_bytes p ++ [ENQ]))).take 5 =
      EOT :: [0x30 + a / 10, 0x30 + a / 10, 0x30 + a % 10, 0x30 + a % 10] from rfl]
    unfold parse_command
    have hra := read_againP_not_short EOT
      [0x30 + a / 10, 0x30 + a / 10, 0x30 + a % 10, 0x30 + a % 10]
      (by decide) (by decide) (by decide)
    have hfle := find_last_eot_cons
      [0x30 + a / 10, 0x30 + a / 10, 0x30 + a % 10, 0x30 + a % 10] (by
      intro hm
      simp only [List.mem_cons, List.not_mem_nil, or_false] at hm
      rcases hm with h | h | h | h <;> exact eot_ne_digit30 _ h)
    have hca : command_alt (EOT ::
        [0x30 + a / 10, 0x30 + a / 10, 0x30 + a % 10, 0x30 + a % 10]) =
        Except.error PErr.incomplete := by
      unfold command_alt
      apply altE_first_incomplete
      unfold write_commandP eot_address
      rw [ascii_char_eq, pbind_ok]
      rw [show [0x30 + a / 10, 0x30 + a / 10, 0x30 + a % 10, 0x30 + a % 10] =
        Address.to_bytes a ++ [] from by simp [Address.to_bytes]]
      rw [addressP_ok a ha, pbind_ok]
      unfold stx_param_value_etx_bcc
      rw [ascii_char_nil, pbind_error, pbind_error]
    simp only [alt_match, hra, hfle, hca]
    simp
  · rw [show (EOT :: (Address.to_bytes a ++ (Parameter.to_bytes p ++ [ENQ]))).take 6 =
      EOT :: [0x30 + a / 10, 0x30 + a / 10, 0x30 + a % 10, 0x30 + a % 10,
        0x30 + p / 1000 % 10] from rfl]
    unfold parse_command
    have hra := read_againP_not_short EOT
      [0x30 + a / 10, 0x30 + a / 10, 0x30 + a % 10, 0x30 + a % 10, 0x30 + p / 1000 % 10]
      (by decide) (by decide) (by decide)
    have hfle := find_last_eot_cons
      [0x30 + a / 10, 0x30 + a / 10, 0x30 + a % 10, 0x30 + a % 10, 0x30 + p / 1000 % 10] (by
      intro hm
      simp only [List.mem_cons, List.not_mem_nil, or_false] at hm
      rcases hm with h | h | h | h | h <;> exact eot_ne_digit30 _ h)
    have hwrite : write_commandP (EOT :: [0x30 + a / 10, 0x30 + a / 10, 0x30 + a % 10,
        0x30 + a % 10, 0x30 + p / 1000 % 10]) = Except.error PErr.error := by
      unfold write_commandP eot_address
      rw [ascii_char_eq, pbind_ok]
      rw [show [0x30 + a / 10, 0x30 + a / 10, 0x30 + a % 10, 0x30 + a % 10,
        0x30 + p / 1000 % 10] = Address.to_bytes a ++ [0x30 + p / 1000 % 10] from by
        simp [Address.to_bytes]]
      rw [addressP_ok a ha, pbind_ok]
      unfold stx_param_value_etx_bcc
      rw [ascii_char_ne (0x30 + p / 1000 % 10) STX (by simp only [STX]; omega),
        pbind_error, pbind_error]
    have hread : read_commandP (EOT :: [0x30 + a / 10, 0x30 + a / 10, 0x30 + a % 10,
        0x30 + a % 10, 0x30 + p / 1000 % 10]) = Except.error PErr.incomplete := by
      unfold read_commandP eot_address
      rw [ascii_char_eq, pbind_ok]
      rw [show [0x30 + a / 10, 0x30 + a / 10, 0x30 + a % 10, 0x30 + a % 10,
        0x30 + p / 1000 % 10] = Address.to_bytes a ++ [0x30 + p / 1000 % 10] from by
        simp [Address.to_bytes]]
      rw [addressP_ok a ha, pbind_ok]
      unfold parameterP
      rw [take_while_m_n_incomplete 4 4 isDigit [0x30 + p / 1000 % 10]
        (by intro x hx; simp only [List.mem_singleton] at hx; subst hx; exact hq0)
        (by simp), pbind_error, pbind_error]
    have hca : command_alt (EOT :: [0x30 + a / 10, 0x30 + a / 10, 0x30 + a % 10,
        0x30 + a % 10, 0x30 + p / 1000 % 10]) = Except.error PErr.incomplete := by
      unfold command_alt
      rw [altE_first_error _ _ _ hwrite]
      exact altE_first_incomplete _ _ _ hread
    simp only [alt_match, hra, hfle, hca]
    simp
  · rw [show (EOT :: (Address.to_bytes a ++ (Parameter.to_bytes p ++ [ENQ]))).take 7 =
      EOT :: [0x30 + a / 10, 0x30 + a / 10, 0x30 + a % 10, 0x30 + a % 10,
        0x30 + p / 1000 % 10, 0x30 + p / 100 % 10] from rfl]
    unfold parse_command
    have hra := read_againP_not_short EOT
      [0x30 + a / 10, 0x30 + a / 10, 0x30 + a % 10, 0x30 + a % 10,
        0x30 + p / 1000 % 10, 0x30 + p / 100 % 10]
      (by decide) (by decide) (by decide)
    have hfle := find_last_eot_cons
      [0x30 + a / 10, 0x30 + a / 10, 0x30 + a % 10, 0x30 + a % 10,
        0x30 + p / 1000 % 10, 0x30 + p / 100 % 10] (by
      intro hm
      simp only [List.mem_cons, List.not_mem_nil, or_false] at hm
      rcases hm with h | h | h | h | h | h <;> exact eot_ne_digit30 _ h)
    have hwrite : write_commandP (EOT :: [0x30 + a / 10, 0x30 + a / 10, 0x30 + a % 10,
        0x30 + a % 10, 0x30 + p / 1000 % 10, 0x30 + p / 100 % 10]) =
        Except.error PErr.error := by
      unfold write_commandP eot_address
      rw [ascii_char_eq, pbind_ok]
      rw [show [0x30 + a / 10, 0x30 + a / 10, 0x30 + a % 10, 0x30 + a % 10,
        0x30 + p / 1000 % 10, 0x30 + p / 100 % 10] =
        Address.to_bytes a ++ [0x30 + p / 1000 % 10, 0x30 + p / 100 % 10] from by
        simp [Address.to_bytes]]
      rw [addressP_ok a ha, pbind_ok]
      unfold stx_param_value_etx_bcc
      rw [ascii_char_ne (0x30 + p / 1000 % 10) STX (by simp only [STX]; omega),
        pbind_error, pbind_error]
    have hread : read_commandP (EOT :: [0x30 + a / 10, 0x30 + a / 10, 0x30 + a % 10,
        0x30 + a % 10, 0x30 + p / 1000 % 10, 0x30 + p / 100 % 10]) =
        Except.error PErr.incomplete := by
      unfold read_commandP eot_address
      rw [ascii_char_eq, pbind_ok]
      rw [show [0x30 + a / 10, 0x30 + a / 10, 0x30 + a % 10, 0x30 + a % 10,
        0x30 + p / 1000 % 10, 0x30 + p / 100 % 10] =
        Address.to_bytes a ++ [0x30 + p / 1000 % 10, 0x30 + p / 100 % 10] from by
        simp [Address.to_bytes]]
      rw [addressP_ok a ha, pbind_ok]
      unfold parameterP
      rw [take_while_m_n_incomplete 4 4 isDigit
        [0x30 + p / 1000 % 10, 0x30 + p / 100 % 10]
        (by intro x hx
            simp only [List.mem_cons, List.not_mem_nil, or_false] at hx
            rcases hx with rfl | rfl <;> first | exact hq0 | exact hq1)
        (by simp), pbind_error, pbind_error]
    have hca : command_alt (EOT :: [0x30 + a / 10, 0x30 + a / 10, 0x30 + a % 10,
        0x30 + a % 10, 0x30 + p / 1000 % 10, 0x30 + p / 100 % 10]) =
        Except.error PErr.incomplete := by
      unfold command_alt
      rw [altE_first_error _ _ _ hwrite]
      exact altE_first_incomplete _ _ _ hread
    simp only [alt_match, hra, hfle, hca]
    simp
  · rw [show (EOT :: (Address.to_bytes a ++ (Parameter.to_bytes p ++ [ENQ]))).take 8 =
      EOT :: [0x30 + a / 10, 0x30 + a / 10, 0x30 + a % 10, 0x30 + a % 10,
        0x30 + p / 1000 % 10, 0x30 + p / 100 % 10, 0x30 + p / 10 % 10] from rfl]
    unfold parse_command
    have hra := read_againP_not_short EOT
      [0x30 + a / 10, 0x30 + a / 10, 0x30 + a % 10, 0x30 + a % 10,
        0x30 + p / 1000 % 10, 0x30 + p / 100 % 10, 0x30 + p / 10 % 10]
      (by decide) (by decide) (by decide)
    have hfle := find_last_eot_cons
      [0x30 + a / 10, 0x30 + a / 10, 0x30 + a % 10, 0x30 + a % 10,
        0x30 + p / 1000 % 10, 0x30 + p / 100 % 10, 0x30 + p / 10 % 10] (by
      intro hm
      simp only [List.mem_cons, List.not_mem_nil, or_false] at hm
      rcases hm with h | h | h | h | h | h | h <;> exact eot_ne_digit30 _ h)
    have hwrite : write_commandP (EOT :: [0x30 + a / 10, 0x30 + a / 10, 0x30 + a % 10,
        0x30 + a % 10, 0x30 + p / 1000 % 10, 0x30 + p / 100 % 10, 0x30 + p / 10 % 10]) =
        Except.error PErr.error := by
      unfold write_commandP eot_address
      rw [ascii_char_eq, pbind_ok]
      rw [show [0x30 + a / 10, 0x30 + a / 10, 0x30 + a % 10, 0x30 + a % 10,
        0x30 + p / 1000 % 10, 0x30 + p / 100 % 10, 0x30 + p / 10 % 10] =
        Address.to_bytes a ++
          [0x30 + p / 1000 % 10, 0x30 + p / 100 % 10, 0x30 + p / 10 % 10] from by
        simp [Address.to_bytes]]
      rw [addressP_ok a ha, pbind_ok]
      unfold stx_param_value_etx_bcc
      rw [ascii_char_ne (0x30 + p / 1000 % 10) STX (by simp only [STX]; omega),
        pbind_error, pbind_error]
    have hread : read_commandP (EOT :: [0x30 + a / 10, 0x30 + a / 10, 0x30 + a % 10,
        0x30 + a % 10, 0x30 + p / 1000 % 10, 0x30 + p / 100 % 10, 0x30 + p / 10 % 10]) =
        Except.error PErr.incomplete := by
      unfold read_commandP eot_address
      rw [ascii_char_eq, pbind_ok]
      rw [show [0x30 + a / 10, 0x30 + a / 10, 0x30 + a % 10, 0x30 + a % 10,
        0x30 + p / 1000 % 10, 0x30 + p / 100 % 10, 0x30 + p / 10 % 10] =
        Address.to_bytes a ++
          [0x30 + p / 1000 % 10, 0x30 + p / 100 % 10, 0x30 + p / 10 % 10] from by
        simp [Address.to_bytes]]
      rw [addressP_ok a ha, pbind_ok]
      unfold parameterP
      rw [take_while_m_n_incomplete 4 4 isDigit
        [0x30 + p / 1000 % 10, 0x30 + p / 100 % 10, 0x30 + p / 10 % 10]
        (by intro x hx
            simp only [List.mem_cons, List.not_mem_nil, or_false] at hx
            rcases hx with rfl | rfl | rfl <;> first | exact hq0 | exact hq1 | exact hq2)
        (by simp), pbind_error, pbind_error]
    have hca : command_alt (EOT :: [0x30 + a / 10, 0x30 + a / 10, 0x30 + a % 10,
        0x30 + a % 10, 0x30 + p / 1000 % 10, 0x30 + p / 100 % 10, 0x30 + p / 10 % 10]) =
        Except.error PErr.incomplete := by
      unfold command_alt
      rw [altE_first_error _ _ _ hwrite]
      exact altE_first_incomplete _ _ _ hread
    simp only [alt_match, hra, hfle, hca]
    simp
  · rw [show (EOT :: (Address.to_bytes a ++ (Parameter.to_bytes p ++ [ENQ]))).take 9 =
      EOT :: [0x30 + a / 10, 0x30 + a / 10, 0x30 + a % 10, 0x30 + a % 10,
        0x30 + p / 1000 % 10, 0x30 + p / 100 % 10, 0x30 + p / 10 % 10,
        0x30 + p % 10] from rfl]
    unfold parse_command
    have hra := read_againP_not_short EOT
      [0x30 + a / 10, 0x30 + a / 10, 0x30 + a % 10, 0x30 + a % 10,
        0x30 + p / 1000 % 10, 0x30 + p / 100 % 10, 0x30 + p / 10 % 10, 0x30 + p % 10]
      (by decide) (by decide) (by decide)
    have hfle := find_last_eot_cons
      [0x30 + a / 10, 0x30 + a / 10, 0x30 + a % 10, 0x30 + a % 10,
        0x30 + p / 1000 % 10, 0x30 + p / 100 % 10, 0x30 + p / 10 % 10, 0x30 + p % 10] (by
      intro hm
      simp only [List.mem_cons, List.not_mem_nil, or_false] at hm
      rcases hm with h | h | h | h | h | h | h | h <;> exact eot_ne_digit30 _ h)
    have hwrite : write_commandP (EOT :: [0x30 + a / 10, 0x30 + a / 10, 0x30 + a % 10,
        0x30 + a % 10, 0x30 + p / 1000 % 10, 0x30 + p / 100 % 10, 0x30 + p / 10 % 10,
        0x30 + p % 10]) = Except.error PErr.error := by
      unfold write_commandP eot_address
      rw [ascii_char_eq, pbind_ok]
      rw [show [0x30 + a / 10, 0x30 + a / 10, 0x30 + a % 10, 0x30 + a % 10,
        0x30 + p / 1000 % 10, 0x30 + p / 100 % 10, 0x30 + p / 10 % 10, 0x30 + p % 10] =
        Address.to_bytes a ++ [0x30 + p / 1000 % 10, 0x30 + p / 100 % 10,
          0x30 + p / 10 % 10, 0x30 + p % 10] from by
        simp [Address.to_bytes]]
      rw [addressP_ok a ha, pbind_ok]
      unfold stx_param_value_etx_bcc
      rw [ascii_char_ne (0x30 + p / 1000 % 10) STX (by simp only [STX]; omega),
        pbind_error, pbind_error]
    have hread : read_commandP (EOT :: [0x30 + a / 10, 0x30 + a / 10, 0x30 + a % 10,
        0x30 + a % 10, 0x30 + p / 1000 % 10, 0x30 + p / 100 % 10, 0x30 + p / 10 % 10,
        0x30 + p % 10]) = Except.error PErr.incomplete := by
      unfold read_commandP eot_address
      rw [ascii_char_eq, pbind_ok]
      rw [show [0x30 + a / 10, 0x30 + a / 10, 0x30 + a % 10, 0x30 + a % 10,
        0x30 + p / 1000 % 10, 0x30 + p / 100 % 10, 0x30 + p / 10 % 10, 0x30 + p % 10] =
        Address.to_bytes a ++ (Parameter.to_bytes p ++ ([] : List Nat)) from by
        simp [Address.to_bytes, Parameter.to_bytes]]
      rw [addressP_ok a ha, pbind_ok]
      rw [parameterP_ok p hp, pbind_ok]
      rw [ascii_char_nil, pbind_error]
    have hca : command_alt (EOT :: [0x30 + a / 10, 0x30 + a / 10, 0x30 + a % 10,
        0x30 + a % 10, 0x30 + p / 1000 % 10, 0x30 + p / 100 % 10, 0x30 + p / 10 % 10,
        0x30 + p % 10]) = Except.error PErr.incomplete := by
      unfold command_alt
      rw [altE_first_error _ _ _ hwrite]
      exact altE_first_incomplete _ _ _ hread
    simp only [alt_match, hra, hfle, hca]
    simp

/-- C9 counterexample: the spec says `NeedData` always comes with zero
consumed bytes, but `parse_command` on the single byte 0x30 (a digit, no
EOT anywhere) discards it: it returns `NeedData` with consumed = 1,
exactly as the repository's own `test_parse_command` asserts. -/
theorem claim_C9_counterexample :
    (parse_command [0x30]).2 = CommandToken.NeedData ∧
      ¬((parse_command [0x30]).1 = 0) := by
  constructor
  · decide
  · decide

theorem claim_C9_witness :
    parse_command ((EOT :: (Address.to_bytes 19 ++
      (Parameter.to_bytes 10 ++ [ENQ]))).take 5) = (0, CommandToken.NeedData) :=
  claim_C9 19 10 5 (by decide) (by decide) (by decide)
